import Mathlib

/-!
# Verification of the StudyPad web frontend core

Shallow embedding of the retrying HTTP transport (`src/lib/api/client.ts`),
the client-side stores (`src/stores/studio-store.ts`, the chat store), the
upload orchestrator (upload page) and the studio/chat orchestration, together
with proofs of the spec's claims about them.

Identifiers (`crypto.randomUUID()`) are abstracted as natural numbers;
timestamps (`new Date()`) as naturals.  Network outcomes are supplied by
oracles so that the event-loop behaviour becomes a pure function of those
oracles.
-/

namespace StudyPad

/-! ## Configuration (`src/lib/config.ts`)

`config.api` and `config.upload`, with environment variables absent so each
takes its hard-coded default. -/

/-- `config.api.retryAttempts` -/
def retryAttempts : Nat := 3

/-- `config.api.retryDelay` (milliseconds) -/
def retryDelay : Nat := 1000

/-- `config.upload.maxSize`: `parseInt('10485760', 10)` default (10 MB). -/
def uploadMaxSize : Nat := 10485760

/-- `config.upload.allowedTypes` -/
def allowedTypes : List String := ["application/pdf"]

/-! ## The retrying transport (`src/lib/api/client.ts`) -/

/-- A field-level validation error, the element shape of a FastAPI
`detail` array: `{ msg, type }` (`ErrorResponse` in `src/types/api.ts`). -/
structure FieldError where
  msg : String
  type : String
deriving Repr, DecidableEq

/-- The runtime value found at `error.response.data?.detail`:
a single string, an array of validation errors, or anything else. -/
inductive DetailVal where
  | str (s : String)
  | arr (errs : List FieldError)
  | other
deriving Repr, DecidableEq

/-- `error.response` when present: HTTP status plus the (optional, possibly
ill-shaped) `data?.detail` field.  `detail = none` covers both `data`
undefined and `data.detail` undefined. -/
structure ErrResponse where
  status : Nat
  detail : Option DetailVal
deriving Repr, DecidableEq

/-- The `AxiosError` fields the client inspects: `error.response`,
`error.request` (whether a request was actually sent), and
`error.message` (the underlying transport error text). -/
structure ApiError where
  response : Option ErrResponse
  request : Bool
  message : String
deriving Repr, DecidableEq

/-- `shouldRetry` (src/lib/api/client.ts:22-28): retry on network errors
(no response), 5xx server errors, and 429 rate limiting. -/
def shouldRetry (error : ApiError) : Bool :=
  match error.response with
  | none => true
  | some r =>
      if 500 ≤ r.status ∧ r.status < 600 then true
      else if r.status = 429 then true
      else false

/-- `wait` (src/lib/api/client.ts:31-34): delay before a retry,
`ms * 2^attempt` (exponential backoff).  We record the computed delay
rather than sleeping. -/
def waitDelay (ms attempt : Nat) : Nat := ms * 2 ^ attempt

/-- Outcome of one attempt of a request, as decided by the network. -/
inductive Outcome where
  | success
  | failure (e : ApiError)
deriving Repr, DecidableEq

/-- Result of running a request through the response interceptor's retry
loop: the backoff delays that were awaited (one per retry actually made,
in order) and the final outcome. -/
structure RunResult where
  delays : List Nat
  result : Outcome
deriving Repr, DecidableEq

/-- The response-interceptor retry loop (src/lib/api/client.ts:67-95).
`oracle n` is the outcome of the attempt made while `_retry = n`
(so `oracle 0` is the initial attempt and `oracle n` for `n ≥ 1` the `n`-th
retry).  On a failure with `shouldRetry` and `_retry < MAX_RETRIES`, the
code increments `_retry` to `n+1`, awaits `wait(RETRY_DELAY, _retry - 1)`
— i.e. `RETRY_DELAY * 2^n` — and re-issues the request. -/
def attemptLoop (oracle : Nat → Outcome) (retry : Nat) : RunResult :=
  match oracle retry with
  | .success => ⟨[], .success⟩
  | .failure e =>
      if _h : shouldRetry e ∧ retry < retryAttempts then
        let rest := attemptLoop oracle (retry + 1)
        ⟨waitDelay retryDelay retry :: rest.delays, rest.result⟩
      else
        ⟨[], .failure e⟩
termination_by retryAttempts - retry

/-- A whole request: the loop started with `_retry = 0`. -/
def runRequest (oracle : Nat → Outcome) : RunResult :=
  attemptLoop oracle 0

/-- Number of retries actually performed by a run (one backoff wait per
retry). -/
def numRetries (r : RunResult) : Nat := r.delays.length

/-- The spec's qualifying-failure predicate, from its own words: no response
at all, or a 5xx status, or 429. -/
def qualifying (e : ApiError) : Prop :=
  e.response = none ∨
    (∃ r, e.response = some r ∧ (500 ≤ r.status ∧ r.status < 600 ∨ r.status = 429))

/-- Error-message extraction after retries are exhausted
(src/lib/api/client.ts:97-122).  `errorMessage` starts as
`'An error occurred'`; with a response it is replaced by a string `detail`,
or by the joined `msg`s of an array `detail`; with a request but no
response by the generic network message; otherwise by `error.message`. -/
def extractErrorMessage (error : ApiError) : String :=
  match error.response with
  | some r =>
      match r.detail with
      | some (.str s) => s
      | some (.arr errs) => String.intercalate ", " (errs.map (·.msg))
      | _ => "An error occurred"
  | none =>
      if error.request then "Network error: Unable to reach server"
      else error.message

/-- The final rejected error's message: the interceptor overwrites
`error.message` with the extracted message before rejecting
(src/lib/api/client.ts:124-126). -/
def finalMessage (oracle : Nat → Outcome) : Option String :=
  match (runRequest oracle).result with
  | .success => none
  | .failure e => some (extractErrorMessage e)

/-- Modelled from the spec's words for claim C3 (a refinement target, not a
source translation): single-string detail first; else joined validation
messages; else, if no response was received, the generic connection-failure
message; otherwise the underlying transport error text. -/
def specErrorMessage (error : ApiError) : String :=
  match error.response with
  | some r =>
      match r.detail with
      | some (.str s) => s
      | some (.arr errs) => String.intercalate ", " (errs.map (·.msg))
      | _ => error.message
  | none => "Network error: Unable to reach server"

/-! ### Retry-loop lemmas -/

/-- Backoff delays actually awaited: at most `retryAttempts - retry` of
them, and the `i`-th (0-indexed from the current `_retry` value) equals
`retryDelay * 2^(retry+i)`. -/
lemma attemptLoop_delays (oracle : Nat → Outcome) :
    ∀ k retry, retryAttempts - retry ≤ k →
      (attemptLoop oracle retry).delays.length ≤ retryAttempts - retry ∧
      ∀ i (h : i < (attemptLoop oracle retry).delays.length),
        (attemptLoop oracle retry).delays.get ⟨i, h⟩ = waitDelay retryDelay (retry + i) := by
  intro k
  induction k with
  | zero =>
      intro retry hk
      rw [attemptLoop]
      cases oracle retry with
      | success => simp
      | failure e =>
          have hge : retryAttempts ≤ retry := by omega
          have : ¬ (shouldRetry e = true ∧ retry < retryAttempts) := by
            rintro ⟨-, hlt⟩; omega
          simp [this]
  | succ k ih =>
      intro retry hk
      rw [attemptLoop]
      cases oracle retry with
      | success => simp
      | failure e =>
          dsimp only
          by_cases hc : shouldRetry e = true ∧ retry < retryAttempts
          · have hrec := ih (retry + 1) (by omega)
            rw [dif_pos hc]
            simp only [List.length_cons]
            refine ⟨by omega, ?_⟩
            · intro i hi
              cases i with
              | zero => rfl
              | succ j =>
                  have := hrec.2 j (by omega)
                  simp only [List.get_cons_succ]
                  rw [this]
                  congr 1
                  omega
          · rw [dif_neg hc]
            simp

/-- Evaluation of a run whose attempts all fail with the same error. -/
lemma runRequest_const_fail (e : ApiError) (hs : shouldRetry e = true) :
    runRequest (fun _ => Outcome.failure e) =
      ⟨[waitDelay retryDelay 0, waitDelay retryDelay 1, waitDelay retryDelay 2],
        .failure e⟩ := by
  have step : ∀ r : Nat, r < retryAttempts →
      attemptLoop (fun _ => Outcome.failure e) r =
        ⟨waitDelay retryDelay r :: (attemptLoop (fun _ => Outcome.failure e) (r + 1)).delays,
          (attemptLoop (fun _ => Outcome.failure e) (r + 1)).result⟩ := by
    intro r hr
    rw [attemptLoop]
    dsimp only
    rw [dif_pos ⟨hs, hr⟩]
  have last : attemptLoop (fun _ => Outcome.failure e) retryAttempts = ⟨[], .failure e⟩ := by
    rw [attemptLoop]
    dsimp only
    rw [dif_neg (by rintro ⟨-, h⟩; omega)]
  unfold runRequest
  rw [step 0 (by norm_num [retryAttempts]), step 1 (by norm_num [retryAttempts]),
    step 2 (by norm_num [retryAttempts])]
  have h3 : (3 : Nat) = retryAttempts := rfl
  rw [show (2 : Nat) + 1 = retryAttempts from rfl, last]

/-! ### Claims about the transport -/

/-- **C1.** The transport retries a failed request iff the failure is
qualifying — no response at all, a 5xx status, or 429; any other 4xx
status (indeed any non-qualifying failure) fails immediately with zero
retries.  Conjuncts: the spec's qualifying predicate coincides with the
code's `shouldRetry`; a non-429 4xx response is never qualifying; a run
whose first attempt fails non-qualifyingly performs no retry and rejects
with that very error; a run whose first attempt fails qualifyingly
performs at least one retry. -/
theorem retry_iff_qualifying :
    (∀ e : ApiError, qualifying e ↔ shouldRetry e = true) ∧
    (∀ (e : ApiError) (r : ErrResponse), e.response = some r → 400 ≤ r.status →
      r.status < 500 → r.status ≠ 429 → ¬ qualifying e) ∧
    (∀ (oracle : Nat → Outcome) (e : ApiError), oracle 0 = .failure e → ¬ qualifying e →
      runRequest oracle = ⟨[], .failure e⟩) ∧
    (∀ (oracle : Nat → Outcome) (e : ApiError), oracle 0 = .failure e → qualifying e →
      0 < numRetries (runRequest oracle)) := by
  have hiff : ∀ e : ApiError, qualifying e ↔ shouldRetry e = true := by
    rintro ⟨resp, req, msg⟩
    cases resp with
    | none => simp [qualifying, shouldRetry]
    | some r =>
        simp only [qualifying, shouldRetry]
        constructor
        · rintro (h | ⟨r', hr', hc⟩)
          · exact absurd h (by simp)
          · obtain rfl : r = r' := by simpa using hr'
            rcases hc with h5 | h4
            · simp [h5]
            · simp [h4]
        · intro h
          split_ifs at h with h5 h4
          · exact Or.inr ⟨r, rfl, Or.inl h5⟩
          · exact Or.inr ⟨r, rfl, Or.inr h4⟩
  refine ⟨hiff, ?_, ?_, ?_⟩
  · intro e r hr h400 h500 h429
    rintro (hnone | ⟨r', hr', hc⟩)
    · rw [hr] at hnone; exact Option.noConfusion hnone
    · rw [hr] at hr'
      obtain rfl : r' = r := by simpa using hr'.symm
      rcases hc with ⟨h5, h6⟩ | h4 <;> omega
  · intro oracle e h0 hq
    unfold runRequest
    rw [attemptLoop, h0]
    dsimp only
    rw [dif_neg (by rintro ⟨hs, -⟩; exact hq ((hiff e).mpr hs))]
  · intro oracle e h0 hq
    unfold numRetries runRequest
    rw [attemptLoop, h0]
    dsimp only
    rw [dif_pos ⟨(hiff e).mp hq, by norm_num [retryAttempts]⟩]
    simp

/-- Witness for C1 at concrete inputs: a 404 response is rejected with zero
retries; a 503 response is retried. -/
theorem retry_iff_qualifying_witness :
    runRequest (fun _ => Outcome.failure ⟨some ⟨404, none⟩, true, "nf"⟩) =
      ⟨[], .failure ⟨some ⟨404, none⟩, true, "nf"⟩⟩ ∧
    0 < numRetries (runRequest (fun _ => Outcome.failure ⟨some ⟨503, none⟩, true, "sv"⟩)) := by
  have h404 : ¬ qualifying ⟨some ⟨404, none⟩, true, "nf"⟩ := by
    rintro (h | ⟨r, hr, hc⟩)
    · exact Option.noConfusion h
    · obtain rfl : r = ⟨404, none⟩ := by simpa using hr.symm
      rcases hc with ⟨h5, h6⟩ | h4 <;> simp_all
  have h503 : qualifying ⟨some ⟨503, none⟩, true, "sv"⟩ :=
    Or.inr ⟨⟨503, none⟩, rfl, Or.inl (by decide)⟩
  exact ⟨retry_iff_qualifying.2.2.1 _ _ rfl h404,
    retry_iff_qualifying.2.2.2 _ _ rfl h503⟩

/-- **C2.** The wait before retry attempt `n` (0-indexed) is
`base_delay * 2^n`; at most 3 retries beyond the first try happen (so at
most 4 attempts); with the configured base delay 1000 the first three
delays are 1000, 2000, 4000. -/
theorem backoff_delays :
    (∀ oracle : Nat → Outcome,
      numRetries (runRequest oracle) ≤ retryAttempts ∧
      ∀ i (h : i < (runRequest oracle).delays.length),
        (runRequest oracle).delays.get ⟨i, h⟩ = retryDelay * 2 ^ i) ∧
    retryAttempts = 3 ∧ retryDelay = 1000 ∧
    (List.range 3).map (fun n => waitDelay retryDelay n) = [1000, 2000, 4000] := by
  refine ⟨?_, rfl, rfl, by decide⟩
  intro oracle
  have h := attemptLoop_delays oracle retryAttempts 0 (by omega)
  refine ⟨by simpa [numRetries, runRequest] using h.1, ?_⟩
  intro i hi
  have := h.2 i hi
  simpa [runRequest, waitDelay] using this

/-- Witness for C2: a permanently network-failing request waits 1000, 2000
and 4000 before its three retries. -/
theorem backoff_delays_witness :
    numRetries (runRequest (fun _ => Outcome.failure ⟨none, true, "net"⟩)) ≤ retryAttempts ∧
    (runRequest (fun _ => Outcome.failure ⟨none, true, "net"⟩)).delays.get
      ⟨2, by rw [runRequest_const_fail ⟨none, true, "net"⟩ rfl]; decide⟩ = retryDelay * 2 ^ 2 := by
  have h := backoff_delays.1 (fun _ => Outcome.failure ⟨none, true, "net"⟩)
  exact ⟨h.1, h.2 2 _⟩

/-- **C3 counterexample.** The claim's precedence says a response whose
`detail` has neither of the two recognised shapes should fall through to
the transport error text; the code instead keeps the default
`'An error occurred'`.  Concrete input: a 400 response with no usable
`detail`, transport text `"boom"` — the request ends in final failure with
message `"An error occurred"`, not `"boom"`. -/
theorem errmsg_precedence_counterexample :
    (runRequest (fun _ => Outcome.failure ⟨some ⟨400, none⟩, true, "boom"⟩)).result =
      .failure ⟨some ⟨400, none⟩, true, "boom"⟩ ∧
    finalMessage (fun _ => Outcome.failure ⟨some ⟨400, none⟩, true, "boom"⟩) =
      some "An error occurred" ∧
    specErrorMessage ⟨some ⟨400, none⟩, true, "boom"⟩ = "boom" ∧
    extractErrorMessage ⟨some ⟨400, none⟩, true, "boom"⟩ ≠
      specErrorMessage ⟨some ⟨400, none⟩, true, "boom"⟩ := by
  have hrun : runRequest (fun _ => Outcome.failure ⟨some ⟨400, none⟩, true, "boom"⟩) =
      ⟨[], .failure ⟨some ⟨400, none⟩, true, "boom"⟩⟩ := by
    unfold runRequest
    rw [attemptLoop]
    dsimp only
    rw [dif_neg (by rintro ⟨hs, -⟩; simp [shouldRetry] at hs)]
  refine ⟨by rw [hrun], ?_, rfl, by decide⟩
  unfold finalMessage
  rw [hrun]
  rfl

/-- **C3 amended.** The final error message follows the code's precedence:
string `detail` first; then joined validation `msg`s; then, when a
response is present but `detail` has neither shape, the fixed
`'An error occurred'`; then, with no response but a request sent, the
generic connection-failure message; otherwise the transport error text.
The first conjunct ties the message of every finally-failing run to the
extraction function. -/
theorem errmsg_precedence :
    (∀ (oracle : Nat → Outcome) (e : ApiError), (runRequest oracle).result = .failure e →
      finalMessage oracle = some (extractErrorMessage e)) ∧
    (∀ (e : ApiError) (r : ErrResponse) (s : String), e.response = some r →
      r.detail = some (.str s) → extractErrorMessage e = s) ∧
    (∀ (e : ApiError) (r : ErrResponse) (errs : List FieldError), e.response = some r →
      r.detail = some (.arr errs) →
      extractErrorMessage e = String.intercalate ", " (errs.map (·.msg))) ∧
    (∀ (e : ApiError) (r : ErrResponse), e.response = some r →
      (∀ s, r.detail ≠ some (.str s)) → (∀ errs, r.detail ≠ some (.arr errs)) →
      extractErrorMessage e = "An error occurred") ∧
    (∀ e : ApiError, e.response = none → e.request = true →
      extractErrorMessage e = "Network error: Unable to reach server") ∧
    (∀ e : ApiError, e.response = none → e.request = false →
      extractErrorMessage e = e.message) := by
  refine ⟨?_, ?_, ?_, ?_, ?_, ?_⟩
  · intro oracle e h
    unfold finalMessage
    rw [h]
  · intro e r s hr hd
    unfold extractErrorMessage
    rw [hr]
    dsimp only
    rw [hd]
  · intro e r errs hr hd
    unfold extractErrorMessage
    rw [hr]
    dsimp only
    rw [hd]
  · intro e r hr hs herrs
    unfold extractErrorMessage
    rw [hr]
    dsimp only
    rcases hd : r.detail with - | d
    · rfl
    · cases d with
      | str s => exact absurd hd (hs s)
      | arr errs => exact absurd hd (herrs errs)
      | other => rfl
  · intro e hr hq
    unfold extractErrorMessage
    rw [hr, hq]
    rfl
  · intro e hr hq
    unfold extractErrorMessage
    rw [hr, hq]
    rfl

/-- Witness for the amended C3 at concrete inputs: one string detail, one
validation array, one unusable detail, one pure network failure. -/
theorem errmsg_precedence_witness :
    extractErrorMessage ⟨some ⟨422, some (.str "bad request")⟩, true, "m"⟩ = "bad request" ∧
    extractErrorMessage ⟨some ⟨422, some (.arr [⟨"a", "t"⟩, ⟨"b", "t"⟩])⟩, true, "m"⟩ = "a, b" ∧
    extractErrorMessage ⟨some ⟨400, none⟩, true, "boom"⟩ = "An error occurred" ∧
    extractErrorMessage ⟨none, true, "m"⟩ = "Network error: Unable to reach server" ∧
    extractErrorMessage ⟨none, false, "setup exploded"⟩ = "setup exploded" := by
  refine ⟨errmsg_precedence.2.1 _ ⟨422, some (.str "bad request")⟩ _ rfl rfl, ?_,
    errmsg_precedence.2.2.2.1 _ ⟨400, none⟩ rfl (by simp) (by simp),
    errmsg_precedence.2.2.2.2.1 _ rfl rfl,
    errmsg_precedence.2.2.2.2.2 _ rfl rfl⟩
  have := errmsg_precedence.2.2.1 ⟨some ⟨422, some (.arr [⟨"a", "t"⟩, ⟨"b", "t"⟩])⟩, true, "m"⟩
    ⟨422, some (.arr [⟨"a", "t"⟩, ⟨"b", "t"⟩])⟩ [⟨"a", "t"⟩, ⟨"b", "t"⟩] rfl rfl
  rw [this]
  rfl

/-! ## Upload page (`src/unnamed/part_003`, the upload orchestrator) -/

/-- The fields of a browser `File` the upload page reads: `name`, the
declared media `type`, and `size` in bytes. -/
structure UFile where
  name : String
  type : String
  size : Nat
deriving Repr, DecidableEq

/-- `UploadItem.status` values. -/
inductive UploadStatus where
  | pending | uploading | processing | complete | error
deriving Repr, DecidableEq

/-- `UploadItem` (part_003:14-20). -/
structure UploadItem where
  file : UFile
  progress : Nat
  status : UploadStatus
  error : Option String := none
  docId : Option String := none
deriving Repr, DecidableEq

/-- `validateFiles` (part_003:27-52): partitions the selected files into
valid and invalid, emitting one toast per invalid file; type is checked
before size. Returns `(valid, invalid, toasts)`. -/
def validateFiles : List UFile → List UFile × List UFile × List String
  | [] => ([], [], [])
  | f :: rest =>
      let r := validateFiles rest
      if ¬ allowedTypes.contains f.type then
        (r.1, f :: r.2.1, (f.name ++ " is not a PDF file") :: r.2.2)
      else if uploadMaxSize < f.size then
        (r.1, f :: r.2.1, (f.name ++ " exceeds maximum size of 10MB") :: r.2.2)
      else
        (f :: r.1, r.2.1, r.2.2)

/-- Outcome of `handleFiles` up to the point where uploads would start:
nothing (empty selection), aborted (no valid file), or proceeding with the
newly created pending upload items. -/
inductive HandleOutcome where
  | noFiles
  | aborted (toasts : List String)
  | proceed (toasts : List String) (batch : List UploadItem)
deriving Repr, DecidableEq

/-- `handleFiles` (part_003:89-114) before the upload loop: early return on
an empty selection; validate; single abort toast when no file is valid;
otherwise create one `pending` item per valid file, in order. -/
def handleFiles (files : List UFile) : HandleOutcome :=
  if files = [] then .noFiles
  else
    let (valid, _invalid, toasts) := validateFiles files
    if valid = [] then .aborted (toasts ++ ["No valid files to upload"])
    else .proceed toasts (valid.map fun f => ⟨f, 0, .pending, none, none⟩)

/-- The files for which `handleFiles` issues a network call: exactly the
members of the batch it proceeds with. -/
def networkCalls (o : HandleOutcome) : List UFile :=
  match o with
  | .proceed _ batch => batch.map (·.file)
  | _ => []

/-- The claim's acceptance predicate: declared type in the allowed set and
size within the configured maximum. -/
def fileAccepted (f : UFile) : Bool :=
  allowedTypes.contains f.type && f.size ≤ uploadMaxSize

lemma validateFiles_eq (files : List UFile) :
    (validateFiles files).1 = files.filter fileAccepted ∧
    (validateFiles files).2.1 = files.filter (fun f => ¬ fileAccepted f) ∧
    (validateFiles files).2.2.length = (validateFiles files).2.1.length := by
  induction files with
  | nil => exact ⟨rfl, rfl, rfl⟩
  | cons f rest ih =>
      obtain ⟨ih1, ih2, ih3⟩ := ih
      simp only [validateFiles]
      cases ht : allowedTypes.contains f.type with
      | false =>
          have hacc : fileAccepted f = false := by
            unfold fileAccepted; rw [ht]; rfl
          rw [if_pos (by simp [ht])]
          refine ⟨?_, ?_, ?_⟩
          · simpa [List.filter_cons, hacc] using ih1
          · simpa [List.filter_cons, hacc] using ih2
          · simpa using ih3
      | true =>
          rw [if_neg (by simp [ht])]
          by_cases hs : uploadMaxSize < f.size
          · have hacc : fileAccepted f = false := by
              unfold fileAccepted; rw [ht]; simp; omega
            rw [if_pos hs]
            refine ⟨?_, ?_, ?_⟩
            · simpa [List.filter_cons, hacc] using ih1
            · simpa [List.filter_cons, hacc] using ih2
            · simpa using ih3
          · have hacc : fileAccepted f = true := by
              unfold fileAccepted; rw [ht]; simp; omega
            rw [if_neg hs]
            refine ⟨?_, ?_, ?_⟩
            · simpa [List.filter_cons, hacc] using ih1
            · simpa [List.filter_cons, hacc] using ih2
            · simpa using ih3

lemma validateFiles_valid_eq_filter (files : List UFile) :
    (validateFiles files).1 = files.filter fileAccepted := (validateFiles_eq files).1

lemma validateFiles_invalid_eq_filter (files : List UFile) :
    (validateFiles files).2.1 = files.filter (fun f => ¬ fileAccepted f) :=
  (validateFiles_eq files).2.1

lemma validateFiles_toast_count (files : List UFile) :
    (validateFiles files).2.2.length = (validateFiles files).2.1.length :=
  (validateFiles_eq files).2.2

/-- **C4.** Per-file validation happens before any upload: a file enters
the upload batch iff its declared type is allowed and its size is within
the maximum; the valid and invalid partitions are order-preserving filters
of the selection; each invalid file is reported individually (one toast
per invalid file); no network call is made for an invalid file; and when
no file is valid the operation aborts with the single extra notification
and no network calls. -/
theorem upload_batch_validation :
    (∀ (files : List UFile) (f : UFile),
      f ∈ (validateFiles files).1 ↔
        f ∈ files ∧ allowedTypes.contains f.type ∧ f.size ≤ uploadMaxSize) ∧
    (∀ files : List UFile,
      (validateFiles files).1 = files.filter fileAccepted ∧
      (validateFiles files).2.1 = files.filter (fun f => ¬ fileAccepted f) ∧
      (validateFiles files).2.2.length = (validateFiles files).2.1.length) ∧
    (∀ (files : List UFile) (f : UFile),
      f ∈ networkCalls (handleFiles files) → fileAccepted f = true) ∧
    (∀ files : List UFile, files ≠ [] → (validateFiles files).1 = [] →
      handleFiles files = .aborted ((validateFiles files).2.2 ++ ["No valid files to upload"]) ∧
      networkCalls (handleFiles files) = []) := by
  refine ⟨?_, ?_, ?_, ?_⟩
  · intro files f
    rw [validateFiles_valid_eq_filter]
    simp [List.mem_filter, fileAccepted]
  · intro files
    exact ⟨validateFiles_valid_eq_filter files, validateFiles_invalid_eq_filter files,
      validateFiles_toast_count files⟩
  · intro files f hf
    unfold networkCalls handleFiles at hf
    by_cases hemp : files = []
    · simp [hemp] at hf
    · simp only [hemp, if_false] at hf
      by_cases hv : (validateFiles files).1 = []
      · simp [hv] at hf
      · simp only [hv, if_false] at hf
        simp only [List.map_map, List.mem_map] at hf
        obtain ⟨g, hg, rfl⟩ := hf
        rw [validateFiles_valid_eq_filter] at hg
        have := (List.mem_filter.mp hg).2
        simpa using this
  · intro files hne hv
    constructor
    · unfold handleFiles
      simp only [hne, if_false]
      simp [hv]
    · unfold networkCalls handleFiles
      simp [hne, hv]

/-- Witness for C4: a selection of one text file and one small PDF; the
batch contains exactly the PDF; a selection of a single oversized PDF
aborts with no network call. -/
theorem upload_batch_validation_witness :
    (⟨"a.pdf", "application/pdf", 5⟩ ∈
      (validateFiles [⟨"n.txt", "text/plain", 5⟩, ⟨"a.pdf", "application/pdf", 5⟩]).1 ∧
      ("n.txt" : String) ≠ "" ) ∧
    networkCalls (handleFiles [⟨"big.pdf", "application/pdf", 10485761⟩]) = [] := by
  constructor
  · constructor
    · exact (upload_batch_validation.1 _ _).mpr ⟨by simp, by decide, by decide⟩
    · decide
  · exact (upload_batch_validation.2.2.2 [⟨"big.pdf", "application/pdf", 10485761⟩]
      (by simp) (by decide)).2

/-- `clearCompleted` (part_003:134-136): drop exactly the uploads whose
status is `complete`. -/
def clearCompleted (uploads : List UploadItem) : List UploadItem :=
  uploads.filter (fun u => u.status ≠ UploadStatus.complete)

/-- **C10.** The clear-completed action removes exactly the complete
items: the result is a sublist of the original (so order and every field
of the retained items are unchanged), an item is retained iff it was there
and is not complete, retention preserves multiplicity, and the
not-complete statuses are exactly pending, uploading, processing and
error. -/
theorem clearCompleted_removes_exactly_complete :
    (∀ us : List UploadItem, List.Sublist (clearCompleted us) us) ∧
    (∀ (us : List UploadItem) (u : UploadItem),
      u ∈ clearCompleted us ↔ u ∈ us ∧ u.status ≠ UploadStatus.complete) ∧
    (∀ (us : List UploadItem) (u : UploadItem), u.status ≠ UploadStatus.complete →
      (clearCompleted us).count u = us.count u) ∧
    (∀ u : UploadItem, u.status ≠ UploadStatus.complete ↔
      (u.status = .pending ∨ u.status = .uploading ∨ u.status = .processing ∨
        u.status = .error)) := by
  refine ⟨?_, ?_, ?_, ?_⟩
  · intro us
    exact List.filter_sublist us
  · intro us u
    simp [clearCompleted, List.mem_filter]
  · intro us u hu
    unfold clearCompleted
    rw [List.count_filter]
    simp [hu]
  · intro u
    cases h : u.status <;> simp [h]

/-- Witness for C10 on a concrete store: a pending item survives with its
fields intact, a complete item is removed. -/
theorem clearCompleted_witness :
    (⟨⟨"p.pdf", "application/pdf", 9⟩, 40, .uploading, none, none⟩ ∈
      clearCompleted
        [⟨⟨"c.pdf", "application/pdf", 3⟩, 100, .complete, none, some "d1"⟩,
         ⟨⟨"p.pdf", "application/pdf", 9⟩, 40, .uploading, none, none⟩] ↔
      (⟨⟨"p.pdf", "application/pdf", 9⟩, 40, .uploading, none, none⟩ ∈
        ([⟨⟨"c.pdf", "application/pdf", 3⟩, 100, .complete, none, some "d1"⟩,
          ⟨⟨"p.pdf", "application/pdf", 9⟩, 40, .uploading, none, none⟩] :
          List UploadItem) ∧
        UploadStatus.uploading ≠ UploadStatus.complete)) ∧
    List.Sublist
      (clearCompleted
        [⟨⟨"c.pdf", "application/pdf", 3⟩, 100, .complete, none, some "d1"⟩,
         ⟨⟨"p.pdf", "application/pdf", 9⟩, 40, .uploading, none, none⟩])
      [⟨⟨"c.pdf", "application/pdf", 3⟩, 100, .complete, none, some "d1"⟩,
       ⟨⟨"p.pdf", "application/pdf", 9⟩, 40, .uploading, none, none⟩] :=
  ⟨clearCompleted_removes_exactly_complete.2.1 _ _,
   clearCompleted_removes_exactly_complete.1 _⟩

/-! ### Upload sequencing (part_003:54-87 `uploadFile`, 100-111 the
`for … await` loop of `handleFiles`)

The loop `for (const upload of newUploads) { await uploadFile(upload); }`
runs the files strictly in order; `uploadFile` first sets the item's
status to `uploading`, then receives progress callbacks, then sets the
terminal status (`complete` on resolution, `error` on rejection).  We
model the store mutations as a trace of events, one block per file, and
`statusOf` replays a trace prefix to recover a file's status. -/

/-- Backend outcome of one file's upload: progress percentages delivered
to the `onProgress` callback, then resolution with a doc id or rejection
with a message. -/
inductive UploadResult where
  | ok (progress : List Nat) (docId : String)
  | err (progress : List Nat) (msg : String)
deriving Repr, DecidableEq

/-- A store mutation observed during the upload loop, tagged with the
index of the file it concerns. -/
inductive UpEvent where
  | start (k : Nat)
  | prog (k : Nat) (p : Nat)
  | finish (k : Nat) (s : UploadStatus)
deriving Repr, DecidableEq

/-- The file index an event concerns. -/
def UpEvent.fileIdx : UpEvent → Nat
  | .start k => k
  | .prog k _ => k
  | .finish k _ => k

/-- The terminal status `uploadFile` assigns for a given backend outcome. -/
def terminalOf : UploadResult → UploadStatus
  | .ok _ _ => .complete
  | .err _ _ => .error

/-- The store mutations of one `uploadFile` call on file `k`
(part_003:54-87): status to `uploading`, one progress update per
callback, then the terminal status. -/
def uploadFileEvents (k : Nat) : UploadResult → List UpEvent
  | .ok ps _ => .start k :: (ps.map (UpEvent.prog k) ++ [.finish k .complete])
  | .err ps _ => .start k :: (ps.map (UpEvent.prog k) ++ [.finish k .error])

/-- The sequential upload loop over files `0, …, n-1`: each file's whole
block of events completes before the next file's block begins
(part_003:109-111). -/
def runUploads (results : Nat → UploadResult) : Nat → List UpEvent
  | 0 => []
  | n + 1 => runUploads results n ++ uploadFileEvents n (results n)

/-- Effect of one event on the status of file `k` (the
`prev.map (u => u.file === upload.file ? … : u)` updates). -/
def applyEvent (k : Nat) (s : UploadStatus) : UpEvent → UploadStatus
  | .start j => if j = k then .uploading else s
  | .prog _ _ => s
  | .finish j t => if j = k then t else s

/-- Status of file `k` after replaying a trace from the initial `pending`
state. -/
def statusOf (events : List UpEvent) (k : Nat) : UploadStatus :=
  events.foldl (applyEvent k) .pending

/-- Terminal upload statuses. -/
def isTerminal (s : UploadStatus) : Prop :=
  s = UploadStatus.complete ∨ s = UploadStatus.error

/-- Progress rank of a status along the pending → uploading → terminal
path. -/
def statusRank : UploadStatus → Nat
  | .pending => 0
  | .uploading => 1
  | .processing => 1
  | .complete => 2
  | .error => 2

lemma foldl_applyEvent_frame (k : Nat) (l : List UpEvent) (s : UploadStatus)
    (h : ∀ e ∈ l, e.fileIdx ≠ k) : l.foldl (applyEvent k) s = s := by
  induction l generalizing s with
  | nil => rfl
  | cons e rest ih =>
      have he : e.fileIdx ≠ k := h e (List.mem_cons_self e rest)
      have hstep : applyEvent k s e = s := by
        cases e with
        | start j =>
            simp only [applyEvent]
            rw [if_neg (by simpa [UpEvent.fileIdx] using he)]
        | prog j p => rfl
        | finish j t =>
            simp only [applyEvent]
            rw [if_neg (by simpa [UpEvent.fileIdx] using he)]
      rw [List.foldl_cons, hstep]
      exact ih s (fun e' he' => h e' (List.mem_cons_of_mem e he'))

lemma foldl_prog_map (k j : Nat) (ps : List Nat) (s : UploadStatus) :
    (ps.map (UpEvent.prog j)).foldl (applyEvent k) s = s := by
  induction ps generalizing s with
  | nil => rfl
  | cons p rest ih => simpa using ih s

lemma uploadFileEvents_fileIdx (k : Nat) (r : UploadResult) :
    ∀ e ∈ uploadFileEvents k r, e.fileIdx = k := by
  intro e he
  cases r with
  | ok ps d =>
      simp only [uploadFileEvents, List.mem_cons, List.mem_append, List.mem_map] at he
      rcases he with rfl | ⟨p, -, rfl⟩ | rfl | h
      · rfl
      · rfl
      · rfl
      · exact absurd h (List.not_mem_nil e)
  | err ps m =>
      simp only [uploadFileEvents, List.mem_cons, List.mem_append, List.mem_map] at he
      rcases he with rfl | ⟨p, -, rfl⟩ | rfl | h
      · rfl
      · rfl
      · rfl
      · exact absurd h (List.not_mem_nil e)

lemma runUploads_fileIdx_lt (results : Nat → UploadResult) (n : Nat) :
    ∀ e ∈ runUploads results n, e.fileIdx < n := by
  induction n with
  | zero => intro e he; simp [runUploads] at he
  | succ n ih =>
      intro e he
      rw [runUploads, List.mem_append] at he
      rcases he with h | h
      · exact Nat.lt_succ_of_lt (ih e h)
      · rw [uploadFileEvents_fileIdx n (results n) e h]
        exact Nat.lt_succ_self n

/-- Splitting a longer run after a shorter one: the remainder only
concerns files numbered `m` or higher. -/
lemma runUploads_decompose (results : Nat → UploadResult) {m n : Nat} (h : m ≤ n) :
    ∃ c : List UpEvent, runUploads results n = runUploads results m ++ c ∧
      ∀ e ∈ c, m ≤ e.fileIdx := by
  induction n with
  | zero =>
      obtain rfl : m = 0 := Nat.le_zero.mp h
      exact ⟨[], by simp [runUploads], by simp⟩
  | succ n ih =>
      rcases Nat.lt_or_ge m (n + 1) with hlt | hge
      · obtain ⟨c, hc, hcf⟩ := ih (Nat.lt_succ_iff.mp hlt)
        refine ⟨c ++ uploadFileEvents n (results n), ?_, ?_⟩
        · rw [runUploads, hc, List.append_assoc]
        · intro e he
          rcases List.mem_append.mp he with h' | h'
          · exact hcf e h'
          · rw [uploadFileEvents_fileIdx n (results n) e h']
            exact Nat.lt_succ_iff.mp hlt
      · obtain rfl : m = n + 1 := Nat.le_antisymm h hge
        exact ⟨[], by simp, by simp⟩

lemma uploadFileEvents_length_pos (k : Nat) (r : UploadResult) :
    0 < (uploadFileEvents k r).length := by
  cases r <;> simp [uploadFileEvents]

/-- Full block replay for its own file: the block ends in the terminal
status of the backend outcome. -/
lemma block_foldl (k : Nat) (r : UploadResult) (s : UploadStatus) :
    (uploadFileEvents k r).foldl (applyEvent k) s = terminalOf r := by
  cases r with
  | ok ps d =>
      simp only [uploadFileEvents, List.foldl_cons, List.foldl_append]
      rw [foldl_prog_map]
      simp [applyEvent, terminalOf]
  | err ps m =>
      simp only [uploadFileEvents, List.foldl_cons, List.foldl_append]
      rw [foldl_prog_map]
      simp [applyEvent, terminalOf]

/-- Partial block replay: taking `j` events of file `k`'s block with
`0 < j < ` block length leaves the file `uploading`. -/
lemma block_take_foldl (k : Nat) (r : UploadResult) (j : Nat) (hj0 : 0 < j)
    (hjlt : j < (uploadFileEvents k r).length) (s : UploadStatus) :
    ((uploadFileEvents k r).take j).foldl (applyEvent k) s = .uploading := by
  cases r with
  | ok ps d =>
      obtain ⟨j', rfl⟩ : ∃ j', j = j' + 1 := ⟨j - 1, by omega⟩
      simp only [uploadFileEvents, List.length_cons, List.length_append,
        List.length_map, List.length_nil] at hjlt
      simp only [uploadFileEvents, List.take_succ_cons, List.foldl_cons]
      have hle : j' ≤ (ps.map (UpEvent.prog k)).length := by
        simp only [List.length_map]; omega
      rw [List.take_append_of_le_length hle]
      have : applyEvent k s (UpEvent.start k) = .uploading := by
        simp [applyEvent]
      rw [this]
      obtain ⟨qs, hqs⟩ : ∃ qs : List Nat, (ps.map (UpEvent.prog k)).take j' =
          qs.map (UpEvent.prog k) := ⟨ps.take j', by rw [List.map_take]⟩
      rw [hqs, foldl_prog_map]
  | err ps m =>
      obtain ⟨j', rfl⟩ : ∃ j', j = j' + 1 := ⟨j - 1, by omega⟩
      simp only [uploadFileEvents, List.length_cons, List.length_append,
        List.length_map, List.length_nil] at hjlt
      simp only [uploadFileEvents, List.take_succ_cons, List.foldl_cons]
      have hle : j' ≤ (ps.map (UpEvent.prog k)).length := by
        simp only [List.length_map]; omega
      rw [List.take_append_of_le_length hle]
      have : applyEvent k s (UpEvent.start k) = .uploading := by
        simp [applyEvent]
      rw [this]
      obtain ⟨qs, hqs⟩ : ∃ qs : List Nat, (ps.map (UpEvent.prog k)).take j' =
          qs.map (UpEvent.prog k) := ⟨ps.take j', by rw [List.map_take]⟩
      rw [hqs, foldl_prog_map]

/-- The status of file `k` after the first `m` events of a sequential run
of `n ≥ k+1` files: `pending` until file `k`'s block begins, `uploading`
while inside the block, and the block's terminal status from the moment
the block is complete. -/
lemma statusOf_take (results : Nat → UploadResult) {n k : Nat} (hk : k < n) (m : Nat) :
    statusOf ((runUploads results n).take m) k =
      if m ≤ (runUploads results k).length then .pending
      else if m < (runUploads results (k + 1)).length then .uploading
      else terminalOf (results k) := by
  obtain ⟨c, hc, hcf⟩ := runUploads_decompose results (show k + 1 ≤ n from hk)
  have hk1 : runUploads results (k + 1) = runUploads results k ++
      uploadFileEvents k (results k) := rfl
  set A := runUploads results k with hA
  set B := uploadFileEvents k (results k) with hB
  have hAk : ∀ e ∈ A, e.fileIdx ≠ k := fun e he =>
    Nat.ne_of_lt (runUploads_fileIdx_lt results k e he)
  have hCk : ∀ e ∈ c, e.fileIdx ≠ k := fun e he =>
    Nat.ne_of_gt (Nat.lt_of_lt_of_le (Nat.lt_succ_self k) (hcf e he))
  rw [hc, hk1]
  rw [List.append_assoc, List.take_append_eq_append_take]
  unfold statusOf
  rw [List.foldl_append]
  have hAtake : (A.take m).foldl (applyEvent k) UploadStatus.pending =
      UploadStatus.pending :=
    foldl_applyEvent_frame k _ _ (fun e he => hAk e (List.mem_of_mem_take he))
  rw [hAtake]
  rw [List.take_append_eq_append_take, List.foldl_append]
  by_cases hm1 : m ≤ A.length
  · have h0 : m - A.length = 0 := by omega
    rw [h0]
    simp only [Nat.zero_sub, List.take_zero, List.foldl_nil]
    rw [if_pos hm1]
  · rw [if_neg hm1]
    have hpos : 0 < m - A.length := by omega
    by_cases hm2 : m < A.length + B.length
    · have hlt : m - A.length < B.length := by omega
      have hmid := block_take_foldl k (results k) (m - A.length) hpos hlt
        UploadStatus.pending
      rw [hmid]
      have h0 : m - A.length - B.length = 0 := by omega
      rw [h0]
      simp only [List.take_zero, List.foldl_nil]
      rw [if_pos (by simp only [List.length_append]; omega)]
    · have hfull : B.length ≤ m - A.length := by omega
      rw [List.take_of_length_le hfull, block_foldl]
      rw [if_neg (by simp only [List.length_append]; omega)]
      exact foldl_applyEvent_frame k _ _
        (fun e he => hCk e (List.mem_of_mem_take he))

/-- **C5.** Uploads are strictly sequential and each file walks the
pending → uploading → terminal path.  For every backend oracle and batch
size, (1) the status of file `k` after any number `m` of processed events
is the three-phase function of `m` above; (2) whenever file `k+1` has left
`pending`, file `k` is already terminal; (3) a file's status rank never
decreases as the trace extends; (4) every file of the batch ends
terminal, `complete` exactly on backend success; (5) every file is
`uploading` at the point just after its block starts. -/
theorem sequential_uploads :
    (∀ (results : Nat → UploadResult) (n k : Nat), k < n → ∀ m,
      statusOf ((runUploads results n).take m) k =
        if m ≤ (runUploads results k).length then .pending
        else if m < (runUploads results (k + 1)).length then .uploading
        else terminalOf (results k)) ∧
    (∀ (results : Nat → UploadResult) (n k : Nat), k + 1 < n → ∀ m,
      statusOf ((runUploads results n).take m) (k + 1) ≠ .pending →
      isTerminal (statusOf ((runUploads results n).take m) k)) ∧
    (∀ (results : Nat → UploadResult) (n k : Nat), k < n → ∀ m m', m ≤ m' →
      statusRank (statusOf ((runUploads results n).take m) k) ≤
        statusRank (statusOf ((runUploads results n).take m') k)) ∧
    (∀ (results : Nat → UploadResult) (n k : Nat), k < n →
      statusOf (runUploads results n) k = terminalOf (results k) ∧
      isTerminal (statusOf (runUploads results n) k)) ∧
    (∀ (results : Nat → UploadResult) (n k : Nat), k < n →
      statusOf ((runUploads results n).take ((runUploads results k).length + 1)) k =
        .uploading) := by
  have key := statusOf_take
  refine ⟨fun r n k hk m => key r hk m, ?_, ?_, ?_, ?_⟩
  · intro results n k hk m hne
    have h1 := key results (show k + 1 < n from hk) m
    have h0 := key results (show k < n by omega) m
    rw [h1] at hne
    rw [h0]
    have hlen2 : (runUploads results k).length ≤ (runUploads results (k + 1)).length := by
      rw [show runUploads results (k + 1) = runUploads results k ++
        uploadFileEvents k (results k) from rfl]
      simp
    by_cases hm1 : m ≤ (runUploads results (k + 1)).length
    · rw [if_pos hm1] at hne; exact absurd rfl hne
    · rw [if_neg (by omega : ¬ m ≤ (runUploads results k).length), if_neg (by omega :
        ¬ m < (runUploads results (k + 1)).length)]
      cases h : results k with
      | ok ps d => exact Or.inl (by rw [terminalOf])
      | err ps msg => exact Or.inr (by rw [terminalOf])
  · intro results n k hk m m' hmm
    rw [key results hk m, key results hk m']
    by_cases h1 : m ≤ (runUploads results k).length
    · rw [if_pos h1]; simp [statusRank]
    · rw [if_neg h1, if_neg (by omega : ¬ m' ≤ (runUploads results k).length)]
      by_cases h2 : m < (runUploads results (k + 1)).length
      · rw [if_pos h2]
        by_cases h3 : m' < (runUploads results (k + 1)).length
        · rw [if_pos h3]
        · rw [if_neg h3]
          cases results k <;> simp [terminalOf, statusRank]
      · rw [if_neg h2, if_neg (by omega : ¬ m' < (runUploads results (k + 1)).length)]
  · intro results n k hk
    have := key results hk (runUploads results n).length
    rw [List.take_length] at this
    have hlen : (runUploads results (k + 1)).length ≤ (runUploads results n).length := by
      obtain ⟨c, hc, -⟩ := runUploads_decompose results (show k + 1 ≤ n from hk)
      rw [hc]; simp
    have hlen0 : (runUploads results k).length < (runUploads results (k + 1)).length := by
      rw [show runUploads results (k + 1) = runUploads results k ++
        uploadFileEvents k (results k) from rfl]
      simp only [List.length_append]
      have := uploadFileEvents_length_pos k (results k)
      omega
    rw [if_neg (by omega), if_neg (by omega)] at this
    refine ⟨this, ?_⟩
    rw [this]
    cases results k with
    | ok ps d => exact Or.inl (by rw [terminalOf])
    | err ps msg => exact Or.inr (by rw [terminalOf])
  · intro results n k hk
    have := key results hk ((runUploads results k).length + 1)
    rw [if_neg (by omega)] at this
    have hlen0 : (runUploads results k).length + 1 < (runUploads results (k + 1)).length ∨
        (runUploads results k).length + 1 = (runUploads results (k + 1)).length := by
      rw [show runUploads results (k + 1) = runUploads results k ++
        uploadFileEvents k (results k) from rfl]
      simp only [List.length_append]
      have := uploadFileEvents_length_pos k (results k)
      omega
    rcases hlen0 with h | h
    · rw [if_pos h] at this; exact this
    · -- the block has exactly one event: impossible, a block has a start
      -- and a finish, so its length is at least 2
      exfalso
      have h2 : 2 ≤ (uploadFileEvents k (results k)).length := by
        cases results k <;> simp [uploadFileEvents]
      rw [show runUploads results (k + 1) = runUploads results k ++
        uploadFileEvents k (results k) from rfl] at h
      simp only [List.length_append] at h
      omega

/-- Witness for C5 with two files, the first succeeding after one progress
callback, the second failing: after the first file's block the first item
is complete; one event into the second block the second item is uploading
and the first stays terminal. -/
theorem sequential_uploads_witness :
    isTerminal (statusOf ((runUploads
      (fun k => if k = 0 then .ok [50] "d0" else .err [] "fail") 2).take 4) 0) ∧
    statusOf (runUploads
      (fun k => if k = 0 then .ok [50] "d0" else .err [] "fail") 2) 1 =
      terminalOf (.err [] "fail") := by
  constructor
  · refine sequential_uploads.2.1
      (fun k => if k = 0 then .ok [50] "d0" else .err [] "fail") 2 0 (by omega) 4 ?_
    decide
  · exact (sequential_uploads.2.2.2.1
      (fun k => if k = 0 then .ok [50] "d0" else .err [] "fail") 2 1 (by omega)).1

/-! ## Client-side stores

`ChatMessage` and the chat store (`src/unnamed/part_007`), `StudioJob` and
the studio store (`src/stores/studio-store.ts`).  `crypto.randomUUID()`
ids are abstracted as naturals, `Date` timestamps as naturals.  The
floating-point relevance `score` of a source citation is omitted: the
stores never inspect it. -/

/-- A source citation (`SourceReference` in `src/types/index.ts`),
without the floating-point `score`. -/
structure SourceRef where
  page : Option Nat := none
  chunk_id : Option String := none
  content : String
deriving Repr, DecidableEq

/-- `ChatMessage.role`. -/
inductive Role where
  | user | assistant
deriving Repr, DecidableEq

/-- `ChatMessage` (src/types/index.ts): optional TS fields become
`Option`. -/
structure ChatMessage where
  id : Nat
  role : Role
  content : String
  timestamp : Nat
  sources : Option (List SourceRef) := none
  isLoading : Option Bool := none
deriving Repr, DecidableEq

/-- A `Partial<ChatMessage>` as passed to `updateMessage`: absent fields
are `none`. -/
structure MsgUpdate where
  id : Option Nat := none
  role : Option Role := none
  content : Option String := none
  timestamp : Option Nat := none
  sources : Option (List SourceRef) := none
  isLoading : Option Bool := none
deriving Repr, DecidableEq

/-- The object spread `{ ...msg, ...updates }`: every field present in the
update replaces the message's. -/
def applyMsgUpdate (m : ChatMessage) (u : MsgUpdate) : ChatMessage where
  id := u.id.getD m.id
  role := u.role.getD m.role
  content := u.content.getD m.content
  timestamp := u.timestamp.getD m.timestamp
  sources := match u.sources with | some s => some s | none => m.sources
  isLoading := match u.isLoading with | some b => some b | none => m.isLoading

/-- `addMessage` (part_007:24-34): append the new message (with its fresh
id and timestamp already filled in). -/
def addMessage (msgs : List ChatMessage) (m : ChatMessage) : List ChatMessage :=
  msgs ++ [m]

/-- `updateMessage` (part_007:36-39):
`state.messages.map((msg) => (msg.id === id ? { ...msg, ...updates } : msg))`. -/
def updateMessage (msgs : List ChatMessage) (id : Nat) (u : MsgUpdate) :
    List ChatMessage :=
  msgs.map (fun msg => if msg.id = id then applyMsgUpdate msg u else msg)

/-- `StudioJob.type` (src/types/index.ts). -/
inductive JobType where
  | audio | video | briefing | study_guide
deriving Repr, DecidableEq

/-- `StudioJob.status`. -/
inductive JobStatus where
  | pending | processing | complete | error
deriving Repr, DecidableEq

/-- `StudioJob.result`: `{ url?, content? }`. -/
structure StudioResult where
  url : Option String := none
  content : Option String := none
deriving Repr, DecidableEq

/-- `StudioJob` (src/types/index.ts). -/
structure StudioJob where
  id : Nat
  type : JobType
  status : JobStatus
  doc_id : String
  created_at : Nat
  completed_at : Option Nat := none
  result : Option StudioResult := none
  error : Option String := none
deriving Repr, DecidableEq

/-- A `Partial<StudioJob>` as passed to `updateJob`. -/
structure JobUpdate where
  id : Option Nat := none
  type : Option JobType := none
  status : Option JobStatus := none
  doc_id : Option String := none
  created_at : Option Nat := none
  completed_at : Option Nat := none
  result : Option StudioResult := none
  error : Option String := none
deriving Repr, DecidableEq

/-- The object spread `{ ...job, ...updates }`. -/
def applyJobUpdate (j : StudioJob) (u : JobUpdate) : StudioJob where
  id := u.id.getD j.id
  type := u.type.getD j.type
  status := u.status.getD j.status
  doc_id := u.doc_id.getD j.doc_id
  created_at := u.created_at.getD j.created_at
  completed_at := match u.completed_at with | some t => some t | none => j.completed_at
  result := match u.result with | some r => some r | none => j.result
  error := match u.error with | some e => some e | none => j.error

/-- `addJob` (src/stores/studio-store.ts:20-30): append the new job. -/
def addJob (jobs : List StudioJob) (j : StudioJob) : List StudioJob :=
  jobs ++ [j]

/-- `updateJob` (src/stores/studio-store.ts:32-35):
`state.jobs.map((job) => (job.id === id ? { ...job, ...updates } : job))`. -/
def updateJob (jobs : List StudioJob) (id : Nat) (u : JobUpdate) : List StudioJob :=
  jobs.map (fun job => if job.id = id then applyJobUpdate job u else job)

/-- **C9.** `updateMessage` and `updateJob` are frame-exact: with an id not
present in the store the state is completely unchanged; for any id the
number and order of records is preserved — a record at position `i` stays
at position `i`, untouched unless its id matches, merged with the update
if it does. -/
theorem update_frame_effect :
    (∀ (msgs : List ChatMessage) (id : Nat) (u : MsgUpdate),
      ((∀ m ∈ msgs, m.id ≠ id) → updateMessage msgs id u = msgs) ∧
      (updateMessage msgs id u).length = msgs.length ∧
      (∀ (i : Nat) (m : ChatMessage), msgs[i]? = some m → m.id ≠ id →
        (updateMessage msgs id u)[i]? = some m) ∧
      (∀ (i : Nat) (m : ChatMessage), msgs[i]? = some m → m.id = id →
        (updateMessage msgs id u)[i]? = some (applyMsgUpdate m u))) ∧
    (∀ (jobs : List StudioJob) (id : Nat) (u : JobUpdate),
      ((∀ j ∈ jobs, j.id ≠ id) → updateJob jobs id u = jobs) ∧
      (updateJob jobs id u).length = jobs.length ∧
      (∀ (i : Nat) (j : StudioJob), jobs[i]? = some j → j.id ≠ id →
        (updateJob jobs id u)[i]? = some j) ∧
      (∀ (i : Nat) (j : StudioJob), jobs[i]? = some j → j.id = id →
        (updateJob jobs id u)[i]? = some (applyJobUpdate j u))) := by
  constructor
  · intro msgs id u
    refine ⟨?_, by simp [updateMessage], ?_, ?_⟩
    · intro h
      unfold updateMessage
      induction msgs with
      | nil => rfl
      | cons m rest ih =>
          rw [List.map_cons, if_neg (h m (List.mem_cons_self m rest)),
            ih (fun m' hm' => h m' (List.mem_cons_of_mem m hm'))]
    · intro i m hi hm
      unfold updateMessage
      rw [List.getElem?_map, hi, Option.map_some']
      rw [if_neg hm]
    · intro i m hi hm
      unfold updateMessage
      rw [List.getElem?_map, hi, Option.map_some']
      rw [if_pos hm]
  · intro jobs id u
    refine ⟨?_, by simp [updateJob], ?_, ?_⟩
    · intro h
      unfold updateJob
      induction jobs with
      | nil => rfl
      | cons j rest ih =>
          rw [List.map_cons, if_neg (h j (List.mem_cons_self j rest)),
            ih (fun j' hj' => h j' (List.mem_cons_of_mem j hj'))]
    · intro i j hi hj
      unfold updateJob
      rw [List.getElem?_map, hi, Option.map_some']
      rw [if_neg hj]
    · intro i j hi hj
      unfold updateJob
      rw [List.getElem?_map, hi, Option.map_some']
      rw [if_pos hj]

/-- Witness for C9: updating an absent id leaves a concrete two-message
store untouched; updating a present id rewrites only position 1. -/
theorem update_frame_effect_witness :
    updateMessage [⟨1, .user, "hi", 0, none, none⟩, ⟨2, .assistant, "", 0, none, some true⟩]
      7 ⟨none, none, some "x", none, none, none⟩ =
      [⟨1, .user, "hi", 0, none, none⟩, ⟨2, .assistant, "", 0, none, some true⟩] ∧
    (updateMessage [⟨1, .user, "hi", 0, none, none⟩, ⟨2, .assistant, "", 0, none, some true⟩]
      2 ⟨none, none, some "ok", none, none, some false⟩)[0]? =
      some ⟨1, .user, "hi", 0, none, none⟩ ∧
    updateJob [⟨5, .audio, .processing, "d", 0, none, none, none⟩] 9
      ⟨none, none, some .complete, none, none, none, none, none⟩ =
      [⟨5, .audio, .processing, "d", 0, none, none, none⟩] := by
  refine ⟨?_, ?_, ?_⟩
  · exact (update_frame_effect.1 _ 7 _).1 (by decide)
  · exact (update_frame_effect.1 _ 2 _).2.2.1 0 _ rfl (by decide)
  · exact (update_frame_effect.2 _ 9 _).1 (by decide)

/-! ## Chat orchestration (`src/app/page.tsx` `handleSubmit`) -/

/-- Outcome of the `api.query` call as seen by `handleSubmit`: resolution
with an answer and sources, or rejection with an error message. -/
inductive QueryOutcome where
  | ok (answer : String) (sources : List SourceRef)
  | fail (msg : String)
deriving Repr, DecidableEq

/-- JavaScript `String.prototype.trim`: strip whitespace from both ends.
Defined over the character list so that it evaluates by kernel
reduction. -/
def jsTrim (s : String) : String :=
  ⟨((s.data.dropWhile Char.isWhitespace).reverse.dropWhile Char.isWhitespace).reverse⟩

/-- The user message appended on submit (page.tsx:33-36). -/
def userMsgOf (input : String) (uid now : Nat) : ChatMessage :=
  ⟨uid, .user, jsTrim input, now, none, none⟩

/-- The loading assistant placeholder appended on submit
(page.tsx:39-43). -/
def asstMsgOf (aid now : Nat) : ChatMessage :=
  ⟨aid, .assistant, "", now, none, some true⟩

/-- `handleSubmit` up to the suspension point (page.tsx:24-50): ignore a
blank submission; otherwise append the user message and the loading
assistant placeholder, and read the id of the last message of the store —
the assistant placeholder's id.  `uid`/`aid` stand for the two
`crypto.randomUUID()` draws, `now` for `new Date()`. -/
def handleSubmit (msgs : List ChatMessage) (input : String) (uid aid now : Nat) :
    List ChatMessage × Option Nat :=
  if jsTrim input = "" then (msgs, none)
  else
    let m2 := addMessage (addMessage msgs (userMsgOf input uid now)) (asstMsgOf aid now)
    (m2, m2.getLast?.map (·.id))

/-- The `updateMessage` payload the response continuation passes
(page.tsx:59-70): answer, sources and cleared loading flag on success;
error-prefixed content and cleared loading flag on failure. -/
def respUpdate : QueryOutcome → MsgUpdate
  | .ok answer sources => ⟨none, none, some answer, none, some sources, some false⟩
  | .fail msg => ⟨none, none, some ("Error: " ++ msg), none, none, some false⟩

/-- The response continuation: mutate the recorded assistant message. -/
def applyQueryResponse (msgs : List ChatMessage) (aid : Nat) (resp : QueryOutcome) :
    List ChatMessage :=
  updateMessage msgs aid (respUpdate resp)

/-- **C6.** On a submission with non-empty trimmed text the user message
and then the loading assistant placeholder are appended in that order, and
the recorded id is the placeholder's; the eventual response (success or
failure) rewrites exactly the placeholder — every prior message and the
user message are untouched — setting its content (and citations on
success) and clearing its loading flag.   A blank submission changes
nothing.  Hypotheses `uid ≠ aid` and freshness of `aid` reflect
`crypto.randomUUID()` uniqueness. -/
theorem chat_submit_response :
    (∀ (msgs : List ChatMessage) (input : String) (uid aid now : Nat),
      jsTrim input = "" → handleSubmit msgs input uid aid now = (msgs, none)) ∧
    (∀ (msgs : List ChatMessage) (input : String) (uid aid now : Nat),
      jsTrim input ≠ "" →
      (handleSubmit msgs input uid aid now).1 =
        msgs ++ [userMsgOf input uid now, asstMsgOf aid now] ∧
      (handleSubmit msgs input uid aid now).2 = some aid) ∧
    (∀ (msgs : List ChatMessage) (input : String) (uid aid now : Nat)
      (resp : QueryOutcome), jsTrim input ≠ "" → uid ≠ aid →
      (∀ m ∈ msgs, m.id ≠ aid) →
      (∀ (i : Nat) (m : ChatMessage), msgs[i]? = some m →
        (applyQueryResponse (handleSubmit msgs input uid aid now).1 aid resp)[i]? = some m) ∧
      (applyQueryResponse (handleSubmit msgs input uid aid now).1 aid
          resp)[msgs.length]? = some (userMsgOf input uid now) ∧
      (applyQueryResponse (handleSubmit msgs input uid aid now).1 aid
          resp)[msgs.length + 1]? =
        some (applyMsgUpdate (asstMsgOf aid now) (respUpdate resp)) ∧
      (applyQueryResponse (handleSubmit msgs input uid aid now).1 aid
          resp).length = msgs.length + 2) ∧
    (∀ (aid now : Nat) (answer : String) (sources : List SourceRef),
      applyMsgUpdate (asstMsgOf aid now) (respUpdate (.ok answer sources)) =
        ⟨aid, .assistant, answer, now, some sources, some false⟩) ∧
    (∀ (aid now : Nat) (msg : String),
      applyMsgUpdate (asstMsgOf aid now) (respUpdate (.fail msg)) =
        ⟨aid, .assistant, "Error: " ++ msg, now, none, some false⟩) := by
  refine ⟨?_, ?_, ?_, ?_, ?_⟩
  · intro msgs input uid aid now h
    unfold handleSubmit
    rw [if_pos h]
  · intro msgs input uid aid now h
    unfold handleSubmit
    rw [if_neg h]
    refine ⟨by simp [addMessage], ?_⟩
    simp [addMessage, asstMsgOf]
  · intro msgs input uid aid now resp h hne hfresh
    have hsubmit : (handleSubmit msgs input uid aid now).1 =
        msgs ++ [userMsgOf input uid now, asstMsgOf aid now] := by
      unfold handleSubmit
      rw [if_neg h]
      simp [addMessage]
    rw [hsubmit]
    refine ⟨?_, ?_, ?_, ?_⟩
    · intro i m hi
      have hlt : i < msgs.length := by
        by_contra hge
        rw [List.getElem?_eq_none (by omega)] at hi
        exact Option.noConfusion hi
      have hmem : m ∈ msgs := List.getElem?_mem hi
      unfold applyQueryResponse updateMessage
      rw [List.getElem?_map, List.getElem?_append_left hlt, hi, Option.map_some']
      rw [if_neg (hfresh m hmem)]
    · unfold applyQueryResponse updateMessage
      rw [List.getElem?_map,
        List.getElem?_append_right (le_refl msgs.length), Nat.sub_self]
      rw [show ([userMsgOf input uid now, asstMsgOf aid now] :
        List ChatMessage)[0]? = some (userMsgOf input uid now) from rfl]
      rw [Option.map_some']
      rw [if_neg (by simpa [userMsgOf] using hne)]
    · unfold applyQueryResponse updateMessage
      rw [List.getElem?_map,
        List.getElem?_append_right (Nat.le_add_right msgs.length 1),
        Nat.add_sub_cancel_left]
      rw [show ([userMsgOf input uid now, asstMsgOf aid now] :
        List ChatMessage)[1]? = some (asstMsgOf aid now) from rfl]
      rw [Option.map_some']
      rw [if_pos (show (asstMsgOf aid now).id = aid from rfl)]
    · unfold applyQueryResponse updateMessage
      simp [addMessage]
  · intro aid now answer sources
    rfl
  · intro aid now msg
    rfl

/-- Witness for C6: submitting `" hello "` to an empty store appends the
trimmed user message and the loading placeholder, records the
placeholder's id, and a successful response turns position 1 into the
resolved assistant message. -/
theorem chat_submit_response_witness :
    (handleSubmit [] " hello " 1 2 0).1 = [userMsgOf " hello " 1 0, asstMsgOf 2 0] ∧
    (handleSubmit [] " hello " 1 2 0).2 = some 2 ∧
    (applyQueryResponse (handleSubmit [] " hello " 1 2 0).1 2
      (.ok "ans" [⟨some 3, none, "src"⟩]))[1]? =
      some (applyMsgUpdate (asstMsgOf 2 0) (respUpdate (.ok "ans" [⟨some 3, none, "src"⟩]))) ∧
    applyMsgUpdate (asstMsgOf 2 0) (respUpdate (.ok "ans" [⟨some 3, none, "src"⟩])) =
      ⟨2, .assistant, "ans", 0, some [⟨some 3, none, "src"⟩], some false⟩ := by
  have htrim : jsTrim " hello " ≠ "" := by decide
  refine ⟨(chat_submit_response.2.1 [] " hello " 1 2 0 htrim).1,
    (chat_submit_response.2.1 [] " hello " 1 2 0 htrim).2, ?_, ?_⟩
  · exact (chat_submit_response.2.2.1 [] " hello " 1 2 0
      (.ok "ans" [⟨some 3, none, "src"⟩]) htrim (by decide)
      (fun m hm => absurd hm (List.not_mem_nil m))).2.2.1
  · exact chat_submit_response.2.2.2.1 2 0 "ans" [⟨some 3, none, "src"⟩]

/-! ## Studio orchestration (`src/unnamed/part_004` `handleGenerate`) -/

/-- Outcome of the `api.studio` call as seen by `handleGenerate`: a
resolved response with status `success`, `error` or `processing`, or a
rejected request. -/
inductive StudioOutcome where
  | success (result : StudioResult)
  | errorStatus (message : Option String)
  | processingStatus
  | rejected (msg : String)
deriving Repr, DecidableEq

/-- The job record created on trigger (part_004:74-78): `processing`
status, bound to the selected document and the action type. -/
def newJobOf (jid : Nat) (action : JobType) (docId : String) (now : Nat) : StudioJob :=
  ⟨jid, action, .processing, docId, now, none, none, none⟩

/-- `handleGenerate` up to the suspension point (part_004:67-84): bail out
with no job when no document is selected; otherwise append the optimistic
`processing` job and read the id of the last job in the store. -/
def handleGenerate (jobs : List StudioJob) (selectedDocId : String) (action : JobType)
    (jid now : Nat) : List StudioJob × Option Nat :=
  if selectedDocId = "" then (jobs, none)
  else
    let j1 := addJob jobs (newJobOf jid action selectedDocId now)
    (j1, j1.getLast?.map (·.id))

/-- The `updateJob` payload of the response continuation
(part_004:86-113): `complete` with result and completion timestamp on
success; `error` with the server message (default `'Generation failed'`)
on an error status; `error` with the rejection message on a rejected
request; no update at all on a `processing` status. -/
def studioRespUpdate (now2 : Nat) : StudioOutcome → Option JobUpdate
  | .success result =>
      some ⟨none, none, some .complete, none, none, some now2, some result, none⟩
  | .errorStatus message =>
      some ⟨none, none, some .error, none, none, none, none,
        some (message.getD "Generation failed")⟩
  | .processingStatus => none
  | .rejected msg =>
      some ⟨none, none, some .error, none, none, none, none, some msg⟩

/-- The response continuation applied to the store. -/
def applyStudioResponse (jobs : List StudioJob) (jid : Nat) (outcome : StudioOutcome)
    (now2 : Nat) : List StudioJob :=
  match studioRespUpdate now2 outcome with
  | some u => updateJob jobs jid u
  | none => jobs

/-- **C7.** Triggering a generation action with a selected document
immediately appends a job in `processing` status bound to that document
and action, and records that job's id; the facade response then moves
exactly that job to `complete` with the result payload and completion
timestamp on success, or to `error` with the error message on an error
status or a rejected request, leaving every other job unchanged.  Without
a selected document nothing is created. -/
theorem studio_job_lifecycle :
    (∀ (jobs : List StudioJob) (action : JobType) (jid now : Nat),
      handleGenerate jobs "" action jid now = (jobs, none)) ∧
    (∀ (jobs : List StudioJob) (docId : String) (action : JobType) (jid now : Nat),
      docId ≠ "" →
      (handleGenerate jobs docId action jid now).1 = jobs ++ [newJobOf jid action docId now] ∧
      (handleGenerate jobs docId action jid now).2 = some jid ∧
      (newJobOf jid action docId now).status = .processing ∧
      (newJobOf jid action docId now).doc_id = docId ∧
      (newJobOf jid action docId now).type = action) ∧
    (∀ (jobs : List StudioJob) (docId : String) (action : JobType) (jid now now2 : Nat)
      (outcome : StudioOutcome), docId ≠ "" → (∀ j ∈ jobs, j.id ≠ jid) →
      (∀ (i : Nat) (j : StudioJob), jobs[i]? = some j →
        (applyStudioResponse (handleGenerate jobs docId action jid now).1 jid outcome
          now2)[i]? = some j) ∧
      (applyStudioResponse (handleGenerate jobs docId action jid now).1 jid outcome
          now2)[jobs.length]? = some (match studioRespUpdate now2 outcome with
            | some u => applyJobUpdate (newJobOf jid action docId now) u
            | none => newJobOf jid action docId now)) ∧
    (∀ (jid now now2 : Nat) (action : JobType) (docId : String) (result : StudioResult),
      applyJobUpdate (newJobOf jid action docId now)
          ((studioRespUpdate now2 (.success result)).getD ⟨none, none, none, none, none,
            none, none, none⟩) =
        ⟨jid, action, .complete, docId, now, some now2, some result, none⟩) ∧
    (∀ (jid now now2 : Nat) (action : JobType) (docId : String) (message : Option String),
      applyJobUpdate (newJobOf jid action docId now)
          ((studioRespUpdate now2 (.errorStatus message)).getD ⟨none, none, none, none,
            none, none, none, none⟩) =
        ⟨jid, action, .error, docId, now, none, none,
          some (message.getD "Generation failed")⟩) ∧
    (∀ (jid now now2 : Nat) (action : JobType) (docId : String) (msg : String),
      applyJobUpdate (newJobOf jid action docId now)
          ((studioRespUpdate now2 (.rejected msg)).getD ⟨none, none, none, none, none,
            none, none, none⟩) =
        ⟨jid, action, .error, docId, now, none, none, some msg⟩) := by
  refine ⟨?_, ?_, ?_, ?_, ?_, ?_⟩
  · intro jobs action jid now
    unfold handleGenerate
    rw [if_pos rfl]
  · intro jobs docId action jid now h
    unfold handleGenerate
    rw [if_neg h]
    exact ⟨by simp [addJob], by simp [addJob, newJobOf], rfl, rfl, rfl⟩
  · intro jobs docId action jid now now2 outcome h hfresh
    have hgen : (handleGenerate jobs docId action jid now).1 =
        jobs ++ [newJobOf jid action docId now] := by
      unfold handleGenerate
      rw [if_neg h]
      simp [addJob]
    rw [hgen]
    constructor
    · intro i j hi
      have hlt : i < jobs.length := by
        by_contra hge
        rw [List.getElem?_eq_none (by omega)] at hi
        exact Option.noConfusion hi
      have hmem : j ∈ jobs := List.getElem?_mem hi
      unfold applyStudioResponse
      cases houtcome : studioRespUpdate now2 outcome with
      | none => rw [List.getElem?_append_left hlt, hi]
      | some u =>
          unfold updateJob
          rw [List.getElem?_map, List.getElem?_append_left hlt, hi, Option.map_some']
          rw [if_neg (hfresh j hmem)]
    · unfold applyStudioResponse
      cases houtcome : studioRespUpdate now2 outcome with
      | none =>
          rw [List.getElem?_append_right (le_refl jobs.length), Nat.sub_self]
          rfl
      | some u =>
          unfold updateJob
          rw [List.getElem?_map,
            List.getElem?_append_right (le_refl jobs.length), Nat.sub_self]
          rw [show ([newJobOf jid action docId now] :
            List StudioJob)[0]? = some (newJobOf jid action docId now) from rfl]
          rw [Option.map_some']
          rw [if_pos (show (newJobOf jid action docId now).id = jid from rfl)]
  · intro jid now now2 action docId result
    rfl
  · intro jid now now2 action docId message
    cases message <;> rfl
  · intro jid now now2 action docId msg
    rfl

/-- Witness for C7: a concrete audio generation on document `"d1"`; the
optimistic job is created in `processing` and a success response completes
it with the result and timestamp. -/
theorem studio_job_lifecycle_witness :
    (handleGenerate [] "d1" .audio 4 10).1 = [newJobOf 4 .audio "d1" 10] ∧
    (handleGenerate [] "d1" .audio 4 10).2 = some 4 ∧
    (applyStudioResponse (handleGenerate [] "d1" .audio 4 10).1 4
      (.success ⟨some "u", none⟩) 20)[0]? =
      some ⟨4, .audio, .complete, "d1", 10, some 20, some ⟨some "u", none⟩, none⟩ := by
  have h := studio_job_lifecycle.2.1 [] "d1" .audio 4 10 (by decide)
  refine ⟨h.1, h.2.1, ?_⟩
  have h2 := (studio_job_lifecycle.2.2.1 [] "d1" .audio 4 10 20
    (.success ⟨some "u", none⟩) (by decide)
    (fun j hj => absurd hj (List.not_mem_nil j))).2
  simpa using h2

/-! ## Terminal-state immutability (C8)

The store operations the application's flows ever perform on the chat and
studio stores are appends (`addMessage` / `addJob`) and id-targeted merges
(`updateMessage` / `updateJob`); no caller invokes `clearMessages`,
`removeJob` or `clearJobs`.  We give both stores a common trace semantics,
characterise the per-id operation patterns the two orchestrators can
produce, and prove that once a record is terminal it never changes
again. -/

/-- A store operation, shared shape of both stores: append a fully-built
record, or merge an update into every record with the given id. -/
inductive StoreOp (R U : Type) where
  | add (rec : R)
  | update (id : Nat) (u : U)

/-- One operation on a store state (the bodies of `addMessage`/`addJob`
and `updateMessage`/`updateJob`). -/
def applyOp {R U : Type} (getId : R → Nat) (merge : R → U → R) (s : List R) :
    StoreOp R U → List R
  | .add rec => s ++ [rec]
  | .update id u => s.map (fun r => if getId r = id then merge r u else r)

/-- A sequence of operations, applied left to right. -/
def applyOps {R U : Type} (getId : R → Nat) (merge : R → U → R) (s : List R)
    (ops : List (StoreOp R U)) : List R :=
  ops.foldl (applyOp getId merge) s

/-- Whether an operation concerns the record with the given id. -/
def opTargets {R U : Type} (getId : R → Nat) (id : Nat) : StoreOp R U → Bool
  | .add rec => getId rec = id
  | .update i _ => i = id

/-- The sub-sequence of operations concerning one id. -/
def opsOn {R U : Type} (getId : R → Nat) (id : Nat) (ops : List (StoreOp R U)) :
    List (StoreOp R U) :=
  ops.filter (opTargets getId id)

/-- The record a store holds under an id (the first match, as
`find`/`getJobById` would return it). -/
def lookupId {R : Type} (getId : R → Nat) (id : Nat) (s : List R) : Option R :=
  s.find? (fun r => getId r = id)

/-- Local effect of an id's own operations on that id's record. -/
def applyOpLocal {R U : Type} (merge : R → U → R) (o : Option R) :
    StoreOp R U → Option R
  | .add rec => match o with
      | none => some rec
      | some r => some r
  | .update _ u => o.map (fun r => merge r u)

/-- Locally replayed operation sub-sequence. -/
def applyOpsLocal {R U : Type} (merge : R → U → R) (o : Option R)
    (ops : List (StoreOp R U)) : Option R :=
  ops.foldl (applyOpLocal merge) o

/-- An update operation that cannot move a record to another id; every
update the orchestrators issue is of this kind (their payloads never set
the `id` field). -/
def opIdPreserving {R U : Type} (getId : R → Nat) (merge : R → U → R) :
    StoreOp R U → Prop
  | .add _ => True
  | .update _ u => ∀ r, getId (merge r u) = getId r

lemma lookupId_cons {R : Type} (getId : R → Nat) (id : Nat) (r : R) (rest : List R) :
    lookupId getId id (r :: rest) =
      if getId r = id then some r else lookupId getId id rest := by
  unfold lookupId
  rw [List.find?_cons]
  by_cases h : getId r = id
  · simp [h]
  · simp [h]

lemma lookupId_append_single {R : Type} (getId : R → Nat) (id : Nat) (s : List R)
    (rec : R) :
    lookupId getId id (s ++ [rec]) =
      match lookupId getId id s with
      | some r => some r
      | none => if getId rec = id then some rec else none := by
  induction s with
  | nil =>
      rw [List.nil_append, lookupId_cons]
      rfl
  | cons r rest ih =>
      rw [List.cons_append, lookupId_cons, lookupId_cons]
      by_cases h : getId r = id
      · rw [if_pos h, if_pos h]
      · rw [if_neg h, if_neg h, ih]

lemma lookupId_update {R U : Type} (getId : R → Nat) (merge : R → U → R) (j : Nat)
    (u : U) (hu : ∀ r, getId (merge r u) = getId r) (id : Nat) (s : List R) :
    lookupId getId id
        (s.map (fun r => if getId r = j then merge r u else r)) =
      if j = id then (lookupId getId id s).map (fun r => merge r u)
      else lookupId getId id s := by
  induction s with
  | nil =>
      by_cases h : j = id
      · simp [lookupId, h]
      · simp [lookupId, h]
  | cons r rest ih =>
      rw [List.map_cons, lookupId_cons, lookupId_cons]
      by_cases hrj : getId r = j
      · rw [if_pos hrj]
        have hid : getId (merge r u) = getId r := hu r
        by_cases hr : getId r = id
        · rw [hid, if_pos hr, if_pos (hrj.symm.trans hr), if_pos hr, Option.map_some']
        · rw [hid, if_neg hr, ih, if_neg hr]
      · rw [if_neg hrj]
        by_cases hr : getId r = id
        · have hj : ¬ j = id := fun hh => hrj (hr.trans hh.symm)
          rw [if_pos hr, if_neg hj, if_pos hr]
        · rw [if_neg hr, ih, if_neg hr]

/-- Localization: what a store holds under an id after a batch of
operations depends only on the id's own operation sub-sequence, replayed
locally. -/
lemma lookupId_applyOps {R U : Type} (getId : R → Nat) (merge : R → U → R) :
    ∀ (ops : List (StoreOp R U)), (∀ op ∈ ops, opIdPreserving getId merge op) →
      ∀ (s : List R) (id : Nat),
      lookupId getId id (applyOps getId merge s ops) =
        applyOpsLocal merge (lookupId getId id s) (opsOn getId id ops) := by
  intro ops
  induction ops with
  | nil => intro _ s id; rfl
  | cons op rest ih =>
      intro hpres s id
      have hop := hpres op (List.mem_cons_self op rest)
      have hrest := fun op' h' => hpres op' (List.mem_cons_of_mem op h')
      show lookupId getId id (applyOps getId merge (applyOp getId merge s op) rest) = _
      rw [ih hrest]
      unfold opsOn
      rw [List.filter_cons]
      cases op with
      | add rec =>
          by_cases h : getId rec = id
          · rw [if_pos (by simp [opTargets, h])]
            show _ = applyOpsLocal merge
              (applyOpLocal merge (lookupId getId id s) (.add rec)) _
            congr 1
            show lookupId getId id (s ++ [rec]) = _
            rw [lookupId_append_single]
            cases hs : lookupId getId id s with
            | none => simp [applyOpLocal, h]
            | some r => simp [applyOpLocal]
          · rw [if_neg (by simp [opTargets, h])]
            congr 1
            show lookupId getId id (s ++ [rec]) = _
            rw [lookupId_append_single]
            cases hs : lookupId getId id s with
            | none => simp [h]
            | some r => simp
      | update j u =>
          by_cases h : j = id
          · rw [if_pos (by simp [opTargets, h])]
            show _ = applyOpsLocal merge
              (applyOpLocal merge (lookupId getId id s) (.update j u)) _
            congr 1
            show lookupId getId id
              (s.map (fun r => if getId r = j then merge r u else r)) = _
            rw [lookupId_update getId merge j u hop id s, if_pos h]
            rfl
          · rw [if_neg (by simp [opTargets, h])]
            congr 1
            show lookupId getId id
              (s.map (fun r => if getId r = j then merge r u else r)) = _
            rw [lookupId_update getId merge j u hop id s, if_neg h]

/-- The per-id patterns the orchestrators can produce: nothing, a single
append (a record born terminal or never resolved), or an append of a
not-yet-terminal record followed by its one resolving update. -/
def goodOpsOn {R U : Type} (getId : R → Nat) (terminal : R → Prop)
    (ops : List (StoreOp R U)) : Prop :=
  ∀ id : Nat,
    opsOn getId id ops = [] ∨
    (∃ rec, getId rec = id ∧ opsOn getId id ops = [.add rec]) ∨
    (∃ rec u, getId rec = id ∧ ¬ terminal rec ∧
      opsOn getId id ops = [.add rec, .update id u])

lemma append_eq_singleton_cases {α : Type} {a b : List α} {x : α}
    (h : a ++ b = [x]) : (a = [] ∧ b = [x]) ∨ (a = [x] ∧ b = []) := by
  cases a with
  | nil => exact Or.inl ⟨rfl, by simpa using h⟩
  | cons y ys =>
      rw [List.cons_append] at h
      obtain ⟨rfl, h2⟩ := List.cons.inj h
      have := List.append_eq_nil.mp h2
      exact Or.inr ⟨by rw [this.1], this.2⟩

lemma append_eq_pair_cases {α : Type} {a b : List α} {x y : α}
    (h : a ++ b = [x, y]) :
    (a = [] ∧ b = [x, y]) ∨ (a = [x] ∧ b = [y]) ∨ (a = [x, y] ∧ b = []) := by
  cases a with
  | nil => exact Or.inl ⟨rfl, by simpa using h⟩
  | cons z zs =>
      rw [List.cons_append] at h
      obtain ⟨rfl, h2⟩ := List.cons.inj h
      rcases append_eq_singleton_cases h2 with ⟨rfl, rfl⟩ | ⟨rfl, rfl⟩
      · exact Or.inr (Or.inl ⟨rfl, rfl⟩)
      · exact Or.inr (Or.inr ⟨rfl, rfl⟩)

/-- Terminal-stability for one record store: in a trace whose per-id
operation sub-sequences follow the orchestrators' patterns, a record that
is terminal at any point of the trace is identical at every later
point. -/
theorem terminal_stable {R U : Type} (getId : R → Nat) (merge : R → U → R)
    (terminal : R → Prop) (ops : List (StoreOp R U))
    (hpres : ∀ op ∈ ops, opIdPreserving getId merge op)
    (hgood : goodOpsOn getId terminal ops) (l rr : List (StoreOp R U))
    (hsplit : ops = l ++ rr) (id : Nat) (r : R)
    (hr : lookupId getId id (applyOps getId merge [] l) = some r)
    (hterm : terminal r) (k : Nat) :
    lookupId getId id (applyOps getId merge [] (l ++ rr.take k)) = some r := by
  subst hsplit
  have hpresl : ∀ op ∈ l, opIdPreserving getId merge op := fun op h =>
    hpres op (List.mem_append_left rr h)
  have hprestk : ∀ op ∈ l ++ rr.take k, opIdPreserving getId merge op := by
    intro op h
    rcases List.mem_append.mp h with h' | h'
    · exact hpres op (List.mem_append_left rr h')
    · exact hpres op (List.mem_append_right l (List.mem_of_mem_take h'))
  have hsplitOn : opsOn getId id (l ++ rr) = opsOn getId id l ++ opsOn getId id rr := by
    unfold opsOn
    exact List.filter_append _ _
  have hloc := lookupId_applyOps getId merge l hpresl [] id
  rw [hloc] at hr
  have hnil : lookupId getId id ([] : List R) = none := rfl
  rw [hnil] at hr
  -- an empty local replay yields no record
  have hlne : opsOn getId id l ≠ [] := by
    intro hempty
    rw [hempty] at hr
    exact Option.noConfusion hr
  -- once the tail sub-sequence is empty, any tail prefix contributes nothing
  have htail : opsOn getId id rr = [] →
      lookupId getId id (applyOps getId merge [] (l ++ rr.take k)) = some r := by
    intro hrrnil
    have htk : opsOn getId id (rr.take k) = [] := by
      unfold opsOn
      rw [List.filter_eq_nil_iff]
      intro a ha
      exact List.filter_eq_nil_iff.mp hrrnil a (List.mem_of_mem_take ha)
    rw [lookupId_applyOps getId merge _ hprestk [] id, hnil]
    have hsplit2 : opsOn getId id (l ++ rr.take k) =
        opsOn getId id l ++ opsOn getId id (rr.take k) := by
      unfold opsOn
      exact List.filter_append _ _
    rw [hsplit2, htk, List.append_nil]
    exact hr
  rcases hgood id with h0 | ⟨rec, hrec, h1⟩ | ⟨rec, u, hrec, hnterm, h2⟩
  · rw [hsplitOn] at h0
    exact absurd (List.append_eq_nil.mp h0).1 hlne
  · rw [hsplitOn] at h1
    rcases append_eq_singleton_cases h1 with ⟨hl, -⟩ | ⟨-, hrr⟩
    · exact absurd hl hlne
    · exact htail hrr
  · rw [hsplitOn] at h2
    rcases append_eq_pair_cases h2 with ⟨hl, -⟩ | ⟨hl, -⟩ | ⟨-, hrr⟩
    · exact absurd hl hlne
    · -- the record were still unresolved: contradicts terminality
      rw [hl] at hr
      have : r = rec := by
        have : applyOpsLocal (U := U) merge none [StoreOp.add rec] = some rec := rfl
        rw [this] at hr
        exact (Option.some.inj hr).symm
      rw [this] at hterm
      exact absurd hterm hnterm
    · exact htail hrr

/-! ### Interleavings of sessions

Each user-triggered flow (one chat submission, one generation trigger)
contributes a fixed little block of store operations; the event loop may
interleave the blocks of concurrently outstanding flows arbitrarily while
preserving each block's internal order.  `ShuffleAll` is exactly that
set of traces. -/

/-- `Interleave a b c`: `c` is an order-preserving interleaving of `a`
and `b`. -/
inductive Interleave {α : Type} : List α → List α → List α → Prop where
  | nil : Interleave [] [] []
  | left {a b c : List α} {x : α} : Interleave a b c → Interleave (x :: a) b (x :: c)
  | right {a b c : List α} {x : α} : Interleave a b c → Interleave a (x :: b) (x :: c)

/-- `ShuffleAll ls t`: `t` interleaves all the lists of `ls`. -/
inductive ShuffleAll {α : Type} : List (List α) → List α → Prop where
  | nil : ShuffleAll [] []
  | cons {ls : List (List α)} {s t u : List α} :
      ShuffleAll ls t → Interleave s t u → ShuffleAll (s :: ls) u

lemma interleave_nil_left {α : Type} : ∀ {b c : List α}, Interleave [] b c → c = b
  | _, _, .nil => rfl
  | _, _, .right h => by rw [interleave_nil_left h]

lemma interleave_nil_right {α : Type} : ∀ {a c : List α}, Interleave a [] c → c = a
  | _, _, .nil => rfl
  | _, _, .left h => by rw [interleave_nil_right h]

lemma interleave_self_nil {α : Type} : ∀ l : List α, Interleave l [] l
  | [] => .nil
  | _ :: xs => .left (interleave_self_nil xs)

lemma interleave_filter {α : Type} (p : α → Bool) :
    ∀ {a b c : List α}, Interleave a b c →
      Interleave (a.filter p) (b.filter p) (c.filter p) := by
  intro a b c h
  induction h with
  | nil => exact .nil
  | @left a b c x _ ih =>
      rw [List.filter_cons, List.filter_cons]
      cases hp : p x
      · simpa using ih
      · simpa using Interleave.left ih
  | @right a b c x _ ih =>
      rw [List.filter_cons, List.filter_cons]
      cases hp : p x
      · simpa using ih
      · simpa using Interleave.right ih

lemma interleave_mem {α : Type} :
    ∀ {a b c : List α}, Interleave a b c → ∀ x ∈ c, x ∈ a ∨ x ∈ b := by
  intro a b c h
  induction h with
  | nil => intro x hx; exact absurd hx (List.not_mem_nil x)
  | @left a b c y _ ih =>
      intro x hx
      rcases List.mem_cons.mp hx with rfl | hx'
      · exact Or.inl (List.mem_cons_self x a)
      · rcases ih x hx' with h' | h'
        · exact Or.inl (List.mem_cons_of_mem y h')
        · exact Or.inr h'
  | @right a b c y _ ih =>
      intro x hx
      rcases List.mem_cons.mp hx with rfl | hx'
      · exact Or.inr (List.mem_cons_self x b)
      · rcases ih x hx' with h' | h'
        · exact Or.inl h'
        · exact Or.inr (List.mem_cons_of_mem y h')

lemma shuffleAll_mem {α : Type} :
    ∀ {ls : List (List α)} {t : List α}, ShuffleAll ls t →
      ∀ x ∈ t, ∃ l ∈ ls, x ∈ l := by
  intro ls t h
  induction h with
  | nil => intro x hx; exact absurd hx (List.not_mem_nil x)
  | @cons ls s t u _ hint ih =>
      intro x hx
      rcases interleave_mem hint x hx with h' | h'
      · exact ⟨s, List.mem_cons_self s ls, h'⟩
      · obtain ⟨l, hl, hxl⟩ := ih x h'
        exact ⟨l, List.mem_cons_of_mem s hl, hxl⟩

lemma shuffleAll_filter {α : Type} (p : α → Bool) :
    ∀ {ls : List (List α)} {t : List α}, ShuffleAll ls t →
      ShuffleAll (ls.map (List.filter p)) (t.filter p) := by
  intro ls t h
  induction h with
  | nil => exact .nil
  | @cons ls s t u _ hint ih =>
      exact .cons ih (interleave_filter p hint)

lemma shuffleAll_all_nil {α : Type} :
    ∀ {ls : List (List α)} {t : List α}, ShuffleAll ls t →
      (∀ l ∈ ls, l = []) → t = [] := by
  intro ls t h
  induction h with
  | nil => intro _; rfl
  | @cons ls s t u hs hint ih =>
      intro hall
      have hs0 : s = [] := hall s (List.mem_cons_self s ls)
      have ht0 : t = [] := ih (fun l hl => hall l (List.mem_cons_of_mem s hl))
      subst hs0; subst ht0
      exact interleave_nil_left hint

lemma shuffleAll_single {α : Type} (l : List α) : ShuffleAll [l] l :=
  .cons .nil (interleave_self_nil l)

/-- When exactly one of the interleaved lists can be non-empty, the
interleaving is that list itself. -/
lemma shuffleAll_eq_of_unique {α : Type} :
    ∀ {ls : List (List α)} {t : List α}, ShuffleAll ls t →
      ∀ (i : Nat) (hi : i < ls.length),
        (∀ (j : Nat) (hj : j < ls.length), j ≠ i → ls.get ⟨j, hj⟩ = []) →
        t = ls.get ⟨i, hi⟩ := by
  intro ls t h
  induction h with
  | nil => intro i hi; exact absurd hi (by simp)
  | @cons ls s t u hs hint ih =>
      intro i hi hothers
      cases i with
      | zero =>
          have ht0 : t = [] := by
            apply shuffleAll_all_nil hs
            intro l hl
            obtain ⟨j, hj, rfl⟩ := List.mem_iff_get.mp hl
            exact hothers (j + 1) (by simpa using hj.isLt) (by omega)
          subst ht0
          exact interleave_nil_right hint
      | succ j =>
          have hs0 : s = [] :=
            hothers 0 (by simp) (by omega)
          subst hs0
          have ht : u = t := interleave_nil_left hint
          subst ht
          exact ih j (by simpa using hi) (fun j' hj' hne =>
            hothers (j' + 1) (by simpa using hj') (by omega))

/-! ### The orchestrators' sessions -/

/-- A chat message is terminal once it is not in the loading state: the
user message from birth, the assistant message once resolved. -/
def msgTerminal (m : ChatMessage) : Prop := m.isLoading ≠ some true

/-- A studio job is terminal in status `complete` or `error`. -/
def jobTerminal (j : StudioJob) : Prop :=
  j.status = .complete ∨ j.status = .error

/-- The parameters of one chat submission flow: the two fresh ids, the
timestamp, the raw input, and the eventual query outcome. -/
structure ChatSessionSpec where
  uid : Nat
  aid : Nat
  now : Nat
  input : String
  resp : QueryOutcome

/-- The chat-store operations one submission performs, in their program
order (page.tsx:33-70): nothing on blank input, else the two appends and
the one resolving update. -/
def ChatSessionSpec.ops (s : ChatSessionSpec) : List (StoreOp ChatMessage MsgUpdate) :=
  if jsTrim s.input = "" then []
  else [.add (userMsgOf s.input s.uid s.now), .add (asstMsgOf s.aid s.now),
    .update s.aid (respUpdate s.resp)]

/-- The ids a submission owns. -/
def ChatSessionSpec.ids (s : ChatSessionSpec) : List Nat :=
  if jsTrim s.input = "" then [] else [s.uid, s.aid]

/-- The parameters of one generation flow. -/
structure StudioSessionSpec where
  jid : Nat
  now : Nat
  now2 : Nat
  docId : String
  action : JobType
  outcome : StudioOutcome

/-- The studio-store operations one generation trigger performs, in their
program order (part_004:67-116): nothing without a selected document, else
the optimistic append and — except on a `processing` response status —
the one resolving update. -/
def StudioSessionSpec.ops (s : StudioSessionSpec) : List (StoreOp StudioJob JobUpdate) :=
  if s.docId = "" then []
  else
    match studioRespUpdate s.now2 s.outcome with
    | some u => [.add (newJobOf s.jid s.action s.docId s.now), .update s.jid u]
    | none => [.add (newJobOf s.jid s.action s.docId s.now)]

/-- The ids a generation trigger owns. -/
def StudioSessionSpec.ids (s : StudioSessionSpec) : List Nat :=
  if s.docId = "" then [] else [s.jid]

lemma flatten_nodup_disjoint_get {α : Type} (L : List (List α)) (h : L.flatten.Nodup)
    (i j : Nat) (hi : i < L.length) (hj : j < L.length) (hne : i ≠ j) (x : α)
    (hx : x ∈ L.get ⟨i, hi⟩) : x ∉ L.get ⟨j, hj⟩ := by
  have hp := (List.nodup_flatten.mp h).2
  rcases Nat.lt_or_ge i j with hij | hij
  · exact fun hxj => (List.pairwise_iff_get.mp hp ⟨i, hi⟩ ⟨j, hj⟩ hij) hx hxj
  · have hji : j < i := by omega
    exact fun hxj => (List.pairwise_iff_get.mp hp ⟨j, hj⟩ ⟨i, hi⟩ hji) hxj hx

lemma chat_session_targets (s : ChatSessionSpec) (id : Nat)
    (op : StoreOp ChatMessage MsgUpdate) (hop : op ∈ s.ops)
    (htar : opTargets ChatMessage.id id op = true) : id ∈ s.ids := by
  unfold ChatSessionSpec.ops at hop
  unfold ChatSessionSpec.ids
  by_cases hb : jsTrim s.input = ""
  · rw [if_pos hb] at hop
    exact absurd hop (List.not_mem_nil op)
  · rw [if_neg hb] at hop
    rw [if_neg hb]
    rcases (by simpa using hop : op = .add (userMsgOf s.input s.uid s.now) ∨
        op = .add (asstMsgOf s.aid s.now) ∨ op = .update s.aid (respUpdate s.resp))
      with rfl | rfl | rfl
    · have : s.uid = id := by simpa [opTargets, userMsgOf] using htar
      simp [this]
    · have : s.aid = id := by simpa [opTargets, asstMsgOf] using htar
      simp [this]
    · have : s.aid = id := by simpa [opTargets] using htar
      simp [this]

lemma chat_session_opsOn_other (s : ChatSessionSpec) (id : Nat) (hid : id ∉ s.ids) :
    opsOn ChatMessage.id id s.ops = [] := by
  unfold opsOn
  rw [List.filter_eq_nil_iff]
  intro op hop htar
  exact hid (chat_session_targets s id op hop htar)

lemma chat_session_opsOn_uid (s : ChatSessionSpec) (hb : jsTrim s.input ≠ "")
    (hne : s.uid ≠ s.aid) :
    opsOn ChatMessage.id s.uid s.ops = [.add (userMsgOf s.input s.uid s.now)] := by
  unfold opsOn ChatSessionSpec.ops
  rw [if_neg hb]
  simp [opTargets, userMsgOf, asstMsgOf, List.filter_cons, Ne.symm hne]

lemma chat_session_opsOn_aid (s : ChatSessionSpec) (hb : jsTrim s.input ≠ "")
    (hne : s.uid ≠ s.aid) :
    opsOn ChatMessage.id s.aid s.ops =
      [.add (asstMsgOf s.aid s.now), .update s.aid (respUpdate s.resp)] := by
  unfold opsOn ChatSessionSpec.ops
  rw [if_neg hb]
  simp [opTargets, userMsgOf, asstMsgOf, List.filter_cons, hne]

lemma studio_session_targets (s : StudioSessionSpec) (id : Nat)
    (op : StoreOp StudioJob JobUpdate) (hop : op ∈ s.ops)
    (htar : opTargets StudioJob.id id op = true) : id ∈ s.ids := by
  unfold StudioSessionSpec.ops at hop
  unfold StudioSessionSpec.ids
  by_cases hd : s.docId = ""
  · rw [if_pos hd] at hop
    exact absurd hop (List.not_mem_nil op)
  · rw [if_neg hd] at hop
    rw [if_neg hd]
    cases hu : studioRespUpdate s.now2 s.outcome with
    | some u =>
        rw [hu] at hop
        rcases (by simpa using hop : op = .add (newJobOf s.jid s.action s.docId s.now) ∨
            op = .update s.jid u) with rfl | rfl
        · have : s.jid = id := by simpa [opTargets, newJobOf] using htar
          simp [this]
        · have : s.jid = id := by simpa [opTargets] using htar
          simp [this]
    | none =>
        rw [hu] at hop
        rcases (by simpa using hop : op = .add (newJobOf s.jid s.action s.docId s.now))
          with rfl
        have : s.jid = id := by simpa [opTargets, newJobOf] using htar
        simp [this]

lemma studio_session_opsOn_other (s : StudioSessionSpec) (id : Nat) (hid : id ∉ s.ids) :
    opsOn StudioJob.id id s.ops = [] := by
  unfold opsOn
  rw [List.filter_eq_nil_iff]
  intro op hop htar
  exact hid (studio_session_targets s id op hop htar)

lemma studio_session_opsOn_own (s : StudioSessionSpec) (hd : s.docId ≠ "") :
    opsOn StudioJob.id s.jid s.ops = s.ops := by
  unfold opsOn StudioSessionSpec.ops
  rw [if_neg hd]
  cases hu : studioRespUpdate s.now2 s.outcome with
  | some u => simp [opTargets, newJobOf, List.filter_cons]
  | none => simp [opTargets, newJobOf, List.filter_cons]

lemma chat_update_preserves_id (resp : QueryOutcome) (r : ChatMessage) :
    (applyMsgUpdate r (respUpdate resp)).id = r.id := by
  cases resp <;> rfl

lemma studio_update_preserves_id (now2 : Nat) (outcome : StudioOutcome) (u : JobUpdate)
    (hu : studioRespUpdate now2 outcome = some u) (r : StudioJob) :
    (applyJobUpdate r u).id = r.id := by
  cases outcome with
  | success result =>
      obtain rfl : (⟨none, none, some .complete, none, none, some now2, some result,
        none⟩ : JobUpdate) = u := by simpa [studioRespUpdate] using hu
      rfl
  | errorStatus message =>
      obtain rfl : (⟨none, none, some .error, none, none, none, none,
        some (message.getD "Generation failed")⟩ : JobUpdate) = u := by
        simpa [studioRespUpdate] using hu
      rfl
  | processingStatus => simp [studioRespUpdate] at hu
  | rejected msg =>
      obtain rfl : (⟨none, none, some .error, none, none, none, none,
        some msg⟩ : JobUpdate) = u := by simpa [studioRespUpdate] using hu
      rfl

/-- Sessions with globally distinct fresh ids produce, under any
interleaving, only the per-id patterns of `goodOpsOn` — chat store. -/
lemma chat_sessions_good (ss : List ChatSessionSpec)
    (hnodup : ((ss.map ChatSessionSpec.ids).flatten).Nodup)
    (t : List (StoreOp ChatMessage MsgUpdate))
    (ht : ShuffleAll (ss.map ChatSessionSpec.ops) t) :
    goodOpsOn ChatMessage.id msgTerminal t := by
  intro id
  have hfil := shuffleAll_filter (opTargets ChatMessage.id id) ht
  rw [List.map_map] at hfil
  by_cases hown : ∃ (i : Nat) (hi : i < ss.length), id ∈ (ss.get ⟨i, hi⟩).ids
  · obtain ⟨i, hi, hmem⟩ := hown
    have hothers : ∀ (j : Nat) (hj : j < ss.length), j ≠ i →
        opsOn ChatMessage.id id (ss.get ⟨j, hj⟩).ops = [] := by
      intro j hj hne
      apply chat_session_opsOn_other
      intro hidj
      refine flatten_nodup_disjoint_get (ss.map ChatSessionSpec.ids) hnodup j i
        (by simpa using hj) (by simpa using hi) hne id ?_ ?_
      · rw [List.get_eq_getElem, List.getElem_map]
        exact hidj
      · rw [List.get_eq_getElem, List.getElem_map]
        exact hmem
    have hothers2 : ∀ (j : Nat)
        (hj : j < (ss.map (List.filter (opTargets ChatMessage.id id) ∘
          ChatSessionSpec.ops)).length), j ≠ i →
        (ss.map (List.filter (opTargets ChatMessage.id id) ∘
          ChatSessionSpec.ops)).get ⟨j, hj⟩ = [] := by
      intro j hj hne
      have hj2 : j < ss.length := by simpa using hj
      rw [List.get_eq_getElem, List.getElem_map]
      exact hothers j hj2 hne
    have huniq := shuffleAll_eq_of_unique hfil i (by simpa using hi) hothers2
    have heq : opsOn ChatMessage.id id t =
        opsOn ChatMessage.id id (ss.get ⟨i, hi⟩).ops := by
      unfold opsOn
      rw [huniq, List.get_eq_getElem, List.getElem_map]
      rfl
    have hb : jsTrim (ss.get ⟨i, hi⟩).input ≠ "" := by
      intro hb2
      unfold ChatSessionSpec.ids at hmem
      rw [if_pos hb2] at hmem
      exact absurd hmem (List.not_mem_nil id)
    have hids : id = (ss.get ⟨i, hi⟩).uid ∨ id = (ss.get ⟨i, hi⟩).aid := by
      unfold ChatSessionSpec.ids at hmem
      rw [if_neg hb] at hmem
      simpa using hmem
    have hsnodup : (ss.get ⟨i, hi⟩).ids.Nodup := by
      refine (List.nodup_flatten.mp hnodup).1 (ss.get ⟨i, hi⟩).ids ?_
      exact List.mem_map_of_mem ChatSessionSpec.ids (List.get_mem ss i hi)
    have hne : (ss.get ⟨i, hi⟩).uid ≠ (ss.get ⟨i, hi⟩).aid := by
      unfold ChatSessionSpec.ids at hsnodup
      rw [if_neg hb] at hsnodup
      simpa using hsnodup
    rcases hids with rfl | rfl
    · refine Or.inr (Or.inl ⟨userMsgOf (ss.get ⟨i, hi⟩).input (ss.get ⟨i, hi⟩).uid
        (ss.get ⟨i, hi⟩).now, rfl, ?_⟩)
      rw [heq, chat_session_opsOn_uid (ss.get ⟨i, hi⟩) hb hne]
    · refine Or.inr (Or.inr ⟨asstMsgOf (ss.get ⟨i, hi⟩).aid (ss.get ⟨i, hi⟩).now,
        respUpdate (ss.get ⟨i, hi⟩).resp, rfl, ?_, ?_⟩)
      · simp [msgTerminal, asstMsgOf]
      · rw [heq, chat_session_opsOn_aid (ss.get ⟨i, hi⟩) hb hne]
  · push_neg at hown
    left
    have hnil := shuffleAll_all_nil hfil (by
      intro l hl
      obtain ⟨s, hsmem, rfl⟩ := List.mem_map.mp hl
      obtain ⟨idx, rfl⟩ := List.mem_iff_get.mp hsmem
      exact chat_session_opsOn_other _ id (hown idx.1 idx.2))
    unfold opsOn
    exact hnil

/-- Sessions with globally distinct fresh ids produce, under any
interleaving, only the per-id patterns of `goodOpsOn` — studio store. -/
lemma studio_sessions_good (ss : List StudioSessionSpec)
    (hnodup : ((ss.map StudioSessionSpec.ids).flatten).Nodup)
    (t : List (StoreOp StudioJob JobUpdate))
    (ht : ShuffleAll (ss.map StudioSessionSpec.ops) t) :
    goodOpsOn StudioJob.id jobTerminal t := by
  intro id
  have hfil := shuffleAll_filter (opTargets StudioJob.id id) ht
  rw [List.map_map] at hfil
  by_cases hown : ∃ (i : Nat) (hi : i < ss.length), id ∈ (ss.get ⟨i, hi⟩).ids
  · obtain ⟨i, hi, hmem⟩ := hown
    have hothers : ∀ (j : Nat) (hj : j < ss.length), j ≠ i →
        opsOn StudioJob.id id (ss.get ⟨j, hj⟩).ops = [] := by
      intro j hj hne
      apply studio_session_opsOn_other
      intro hidj
      refine flatten_nodup_disjoint_get (ss.map StudioSessionSpec.ids) hnodup j i
        (by simpa using hj) (by simpa using hi) hne id ?_ ?_
      · rw [List.get_eq_getElem, List.getElem_map]
        exact hidj
      · rw [List.get_eq_getElem, List.getElem_map]
        exact hmem
    have hothers2 : ∀ (j : Nat)
        (hj : j < (ss.map (List.filter (opTargets StudioJob.id id) ∘
          StudioSessionSpec.ops)).length), j ≠ i →
        (ss.map (List.filter (opTargets StudioJob.id id) ∘
          StudioSessionSpec.ops)).get ⟨j, hj⟩ = [] := by
      intro j hj hne
      have hj2 : j < ss.length := by simpa using hj
      rw [List.get_eq_getElem, List.getElem_map]
      exact hothers j hj2 hne
    have huniq := shuffleAll_eq_of_unique hfil i (by simpa using hi) hothers2
    have heq : opsOn StudioJob.id id t =
        opsOn StudioJob.id id (ss.get ⟨i, hi⟩).ops := by
      unfold opsOn
      rw [huniq, List.get_eq_getElem, List.getElem_map]
      rfl
    have hd : (ss.get ⟨i, hi⟩).docId ≠ "" := by
      intro hd2
      unfold StudioSessionSpec.ids at hmem
      rw [if_pos hd2] at hmem
      exact absurd hmem (List.not_mem_nil id)
    have hid : id = (ss.get ⟨i, hi⟩).jid := by
      unfold StudioSessionSpec.ids at hmem
      rw [if_neg hd] at hmem
      simpa using hmem
    subst hid
    rw [heq, studio_session_opsOn_own (ss.get ⟨i, hi⟩) hd]
    unfold StudioSessionSpec.ops
    rw [if_neg hd]
    cases hu : studioRespUpdate (ss.get ⟨i, hi⟩).now2 (ss.get ⟨i, hi⟩).outcome with
    | some u =>
        refine Or.inr (Or.inr ⟨newJobOf (ss.get ⟨i, hi⟩).jid (ss.get ⟨i, hi⟩).action
          (ss.get ⟨i, hi⟩).docId (ss.get ⟨i, hi⟩).now, u, rfl, ?_, rfl⟩)
        simp [jobTerminal, newJobOf]
    | none =>
        exact Or.inr (Or.inl ⟨newJobOf (ss.get ⟨i, hi⟩).jid (ss.get ⟨i, hi⟩).action
          (ss.get ⟨i, hi⟩).docId (ss.get ⟨i, hi⟩).now, rfl, rfl⟩)
  · push_neg at hown
    left
    have hnil := shuffleAll_all_nil hfil (by
      intro l hl
      obtain ⟨s, hsmem, rfl⟩ := List.mem_map.mp hl
      obtain ⟨idx, rfl⟩ := List.mem_iff_get.mp hsmem
      exact studio_session_opsOn_other _ id (hown idx.1 idx.2))
    unfold opsOn
    exact hnil

/-- **C8.** Terminal records never change again.  For both stores: in any
trace of store operations reachable as an interleaving of submission /
generation sessions whose fresh ids are globally distinct, a record that
is terminal (`complete`/`error` status for jobs; loading flag cleared for
messages) after some prefix of the trace is held unchanged by every
longer prefix. -/
theorem terminal_records_immutable :
    (∀ ss : List ChatSessionSpec, ((ss.map ChatSessionSpec.ids).flatten).Nodup →
      ∀ (t l rr : List (StoreOp ChatMessage MsgUpdate)),
        ShuffleAll (ss.map ChatSessionSpec.ops) t → t = l ++ rr →
        ∀ (id : Nat) (m : ChatMessage),
          lookupId ChatMessage.id id (applyOps ChatMessage.id applyMsgUpdate [] l) =
            some m →
          msgTerminal m → ∀ k,
          lookupId ChatMessage.id id
            (applyOps ChatMessage.id applyMsgUpdate [] (l ++ rr.take k)) = some m) ∧
    (∀ ss : List StudioSessionSpec, ((ss.map StudioSessionSpec.ids).flatten).Nodup →
      ∀ (t l rr : List (StoreOp StudioJob JobUpdate)),
        ShuffleAll (ss.map StudioSessionSpec.ops) t → t = l ++ rr →
        ∀ (id : Nat) (j : StudioJob),
          lookupId StudioJob.id id (applyOps StudioJob.id applyJobUpdate [] l) = some j →
          jobTerminal j → ∀ k,
          lookupId StudioJob.id id
            (applyOps StudioJob.id applyJobUpdate [] (l ++ rr.take k)) = some j) := by
  constructor
  · intro ss hnodup t l rr ht hsplit id m hm hterm k
    have hpres : ∀ op ∈ t, opIdPreserving ChatMessage.id applyMsgUpdate op := by
      intro op hop
      obtain ⟨lops, hlops, hopin⟩ := shuffleAll_mem ht op hop
      obtain ⟨s, -, rfl⟩ := List.mem_map.mp hlops
      unfold ChatSessionSpec.ops at hopin
      by_cases hb : jsTrim s.input = ""
      · rw [if_pos hb] at hopin
        exact absurd hopin (List.not_mem_nil op)
      · rw [if_neg hb] at hopin
        rcases (by simpa using hopin : op = .add (userMsgOf s.input s.uid s.now) ∨
            op = .add (asstMsgOf s.aid s.now) ∨ op = .update s.aid (respUpdate s.resp))
          with rfl | rfl | rfl
        · exact trivial
        · exact trivial
        · exact fun r => chat_update_preserves_id s.resp r
    have hgood := chat_sessions_good ss hnodup t ht
    rw [hsplit] at hpres hgood
    exact terminal_stable ChatMessage.id applyMsgUpdate msgTerminal (l ++ rr) hpres hgood
      l rr rfl id m hm hterm k
  · intro ss hnodup t l rr ht hsplit id j hj hterm k
    have hpres : ∀ op ∈ t, opIdPreserving StudioJob.id applyJobUpdate op := by
      intro op hop
      obtain ⟨lops, hlops, hopin⟩ := shuffleAll_mem ht op hop
      obtain ⟨s, -, rfl⟩ := List.mem_map.mp hlops
      unfold StudioSessionSpec.ops at hopin
      by_cases hd : s.docId = ""
      · rw [if_pos hd] at hopin
        exact absurd hopin (List.not_mem_nil op)
      · rw [if_neg hd] at hopin
        cases hu : studioRespUpdate s.now2 s.outcome with
        | some u =>
            rw [hu] at hopin
            rcases (by simpa using hopin :
                op = .add (newJobOf s.jid s.action s.docId s.now) ∨
                op = .update s.jid u) with rfl | rfl
            · exact trivial
            · exact fun r => studio_update_preserves_id s.now2 s.outcome u hu r
        | none =>
            rw [hu] at hopin
            rcases (by simpa using hopin :
              op = .add (newJobOf s.jid s.action s.docId s.now)) with rfl
            exact trivial
    have hgood := studio_sessions_good ss hnodup t ht
    rw [hsplit] at hpres hgood
    exact terminal_stable StudioJob.id applyJobUpdate jobTerminal (l ++ rr) hpres hgood
      l rr rfl id j hj hterm k

/-- Witness for C8: one chat session (ids 1, 2) and one studio session
(id 7), each run to completion as its own trace; the resolved assistant
message and the completed job are still there, unchanged, after the trace
is extended by the (empty) remainder. -/
theorem terminal_records_immutable_witness :
    lookupId ChatMessage.id 2
      (applyOps ChatMessage.id applyMsgUpdate []
        ((ChatSessionSpec.ops ⟨1, 2, 0, "hi", .ok "ans" []⟩) ++
          ([] : List (StoreOp ChatMessage MsgUpdate)).take 5)) =
      some ⟨2, .assistant, "ans", 0, some [], some false⟩ ∧
    lookupId StudioJob.id 7
      (applyOps StudioJob.id applyJobUpdate []
        ((StudioSessionSpec.ops ⟨7, 0, 5, "d1", .audio, .success ⟨none, some "c"⟩⟩) ++
          ([] : List (StoreOp StudioJob JobUpdate)).take 5)) =
      some ⟨7, .audio, .complete, "d1", 0, some 5, some ⟨none, some "c"⟩, none⟩ := by
  constructor
  · exact terminal_records_immutable.1 [⟨1, 2, 0, "hi", .ok "ans" []⟩] (by decide)
      (ChatSessionSpec.ops ⟨1, 2, 0, "hi", .ok "ans" []⟩)
      (ChatSessionSpec.ops ⟨1, 2, 0, "hi", .ok "ans" []⟩) []
      (shuffleAll_single _) (List.append_nil _).symm 2
      ⟨2, .assistant, "ans", 0, some [], some false⟩ (by decide)
      (by simp [msgTerminal]) 5
  · exact terminal_records_immutable.2 [⟨7, 0, 5, "d1", .audio, .success ⟨none, some "c"⟩⟩]
      (by decide)
      (StudioSessionSpec.ops ⟨7, 0, 5, "d1", .audio, .success ⟨none, some "c"⟩⟩)
      (StudioSessionSpec.ops ⟨7, 0, 5, "d1", .audio, .success ⟨none, some "c"⟩⟩) []
      (shuffleAll_single _) (List.append_nil _).symm 7
      ⟨7, .audio, .complete, "d1", 0, some 5, some ⟨none, some "c"⟩, none⟩
      (by decide) (Or.inl rfl) 5

end StudyPad
